import Mathlib

/-!
# Galaxy front end: primary-expression parser and AST printer

A shallow embedding of `src/frontend/parser/expressions/parse_primary_expr.c` and,
further down, of `src/frontend/parser/printer/print_ast.c`.

The C function works on a `Parser *` (a token array and a cursor) and calls
helpers of the parser core (`at`, `eat`, `expect`, `error`), the node factory
`create_ast_node`, the general expression parser `parse_expr`, and the C library
(`strlen`, `strcmp`, `strtod`, `atoi`, `strdup`, `printf`).  State is passed
explicitly: every function that advances the cursor or reports something returns
the new parser state next to its result.  A `NULL` pointer is `none`.
-/

namespace Galaxy

/-! ## Data model -/

/-- Token kinds.  The source names four of them; `TOKEN_OTHER` stands for the
remaining enumerators of the lexer's token enumeration. -/
inductive TokenType where
  | TOKEN_NUMBER
  | TOKEN_IDENTIFIER
  | TOKEN_OPAREN
  | TOKEN_CPAREN
  | TOKEN_OTHER (tag : Nat)
  deriving DecidableEq, Repr

/-- A token: kind, raw text (`none` is the `NULL` pointer), the literal-subkind
tag `message`, and the source span. -/
structure Token where
  type : TokenType
  lexeme : Option String
  message : String
  line : Int
  column_start : Int
  column_end : Int
  position_start : Int
  position_end : Int
  deriving DecidableEq, Repr

/-- What a read past the end of the token array yields in the model.  In C such
a read is undefined; the model keeps reads total and returns this token. -/
def Token.unspecified : Token :=
  { type := .TOKEN_OTHER 0, lexeme := none, message := "",
    line := 0, column_start := 0, column_end := 0, position_start := 0, position_end := 0 }

instance : Inhabited Token := ⟨Token.unspecified⟩

/-- Parser state: the token array, the cursor, and the two observable channels
the parser writes to: the diagnostics handed to the error reporter, and the lines
printed on standard output. -/
structure Parser where
  tokens : List Token
  index : Nat
  diagnostics : List String
  stdout : List String
  deriving DecidableEq, Repr

/-- Node kinds.  The ten kinds the source names, and `NODE_OTHER` for the
remaining enumerators of the node-kind enumeration. -/
inductive NodeType where
  | NODE_PROGRAM
  | NODE_NUMERIC_LITERAL
  | NODE_IDENTIFIER
  | NODE_BINARY_EXPR
  | NODE_PACKAGE
  | NODE_IMPORT
  | NODE_ASSIGNMENT
  | NODE_OBJECT
  | NODE_PROPERTY
  | NODE_PRE_DECREMENT
  | NODE_OTHER (tag : Nat)
  deriving DecidableEq, Repr

/-- Payload of a numeric literal.  `F` stands for the C type `double`. -/
structure NumericLiteralNode (F : Type) where
  value : F
  decimal : Bool
  deriving DecidableEq, Repr

/-- Payload of an identifier. -/
structure IdentifierNode where
  symbol : String
  deriving DecidableEq, Repr

/-- The `void *data` of a node: the payloads this file builds, or some other
payload the primary parser never creates. -/
inductive NodeData (F : Type) where
  | numeric (d : NumericLiteralNode F)
  | identifier (d : IdentifierNode)
  | other
  deriving DecidableEq, Repr

/-- Identity of a node (its address). -/
abbrev NodeRef := Nat

/-- An AST node: kind tag, payload, source span, and the child sequence, whose
entries are node references or `NULL`. -/
structure AstNode (F : Type) where
  kind : NodeType
  data : NodeData F
  line : Int
  column_start : Int
  position_start : Int
  column_end : Int
  position_end : Int
  children : List (Option NodeRef)
  deriving DecidableEq, Repr

/-! ## C library -/

/-- C `strlen` on a C string (a string without an embedded NUL). -/
def strlen (s : String) : Nat := s.length

/-- C `isspace` in the "C" locale. -/
def isspace (c : Char) : Bool :=
  c.toNat = 32 || (9 ≤ c.toNat && c.toNat ≤ 13)

/-- C `isdigit`. -/
def isdigit (c : Char) : Bool :=
  48 ≤ c.toNat && c.toNat ≤ 57

/-- The value of the longest run of decimal digits at the head of `cs`,
accumulated onto `acc`. -/
def digits_value (acc : Nat) : List Char → Nat
  | [] => acc
  | c :: cs => if isdigit c then digits_value (acc * 10 + (c.toNat - 48)) cs else acc

/-- The integer a text denotes for `strtol` in base 10, before any limit of range:
skip leading white space, read an optional sign, then the longest run of decimal
digits; whatever follows is ignored, and no digits at all give 0. -/
def parsed_integer (s : String) : Int :=
  match s.toList.dropWhile isspace with
  | '-' :: rest => - (digits_value 0 rest : Int)
  | '+' :: rest => (digits_value 0 rest : Int)
  | cs => (digits_value 0 cs : Int)

/-- C `LONG_MAX` where `long` has 64 bits. -/
def LONG_MAX : Int := 9223372036854775807

/-- C `LONG_MIN` where `long` has 64 bits. -/
def LONG_MIN : Int := -9223372036854775808

/-- C `strtol(s, NULL, 10)`: the integer the text denotes, held to the range of
`long`. -/
def strtol (s : String) : Int :=
  if parsed_integer s < LONG_MIN then LONG_MIN
  else if LONG_MAX < parsed_integer s then LONG_MAX
  else parsed_integer s

/-- The conversion of a `long` to `int`: the low 32 bits, read as a signed
number. -/
def int_of_long (x : Int) : Int :=
  (x + 2147483648) % 4294967296 - 2147483648

/-- C `atoi` as the GNU C library computes it, `(int) strtol(s, NULL, 10)`: the
result is a 32-bit `int`.  Inside the range of `int` it is the integer the text
denotes; outside of it, where the C standard leaves the result open, it is what
remains of `strtol`'s result in 32 bits. -/
def atoi (s : String) : Int :=
  int_of_long (strtol s)

/-- C `printf` of one line on standard output. -/
def printf (parser : Parser) (text : String) : Parser :=
  { parser with stdout := parser.stdout ++ [text] }

/-- The text `printf` writes for a `%s` argument; glibc writes `(null)` for a
`NULL` pointer. -/
def fmt_s (s : Option String) : String := s.getD "(null)"

/-! ## Parser core and node factory -/

/-- Modelled from the spec: `at` of the parser core (`peek_current_token`),
declared in `frontend/parser/core.h` and defined outside the embedded files.  It
returns the token under the cursor. -/
def at_ (parser : Parser) : Token :=
  parser.tokens.getD parser.index default

/-- Modelled from the spec: `eat` of the parser core (`consume_token`), declared
in `frontend/parser/core.h` and defined outside the embedded files.  It returns
the token under the cursor and advances the cursor by one. -/
def eat (parser : Parser) : Token × Parser :=
  (parser.tokens.getD parser.index default, { parser with index := parser.index + 1 })

/-- Modelled from the spec: `create_ast_node` of the node store, declared in
`frontend/ast/core.h` and defined outside the embedded files.  It stamps a fresh
node with the kind tag, the payload and the source span, and gives it an empty
child sequence.  The argument order is that of the call sites. -/
def create_ast_node {F : Type} (kind : NodeType) (data : NodeData F)
    (line column_start position_start column_end position_end : Int) : AstNode F :=
  { kind := kind, data := data, line := line, column_start := column_start,
    position_start := position_start, column_end := column_end,
    position_end := position_end, children := [] }

/-- The collaborators of `parse_primary_expr` that are external to it and whose
behaviour the development leaves open:
* `strtod` and `ofInt`: the C library's conversion of a string to `double`, and
  the implicit conversion of an `int` to `double`;
* `error`: the error reporter of the parser core;
* `expect`: `expect_token` of the parser core;
* `parse_expr`: the general expression parser. -/
structure Env (F : Type) where
  strtod : String → F
  ofInt : Int → F
  error : Parser → String → Parser
  expect : Parser → TokenType → String → Token × Parser
  parse_expr : Parser → Option (AstNode F) × Parser

/-! ## `parse_primary_expr` -/

/-- `parse_primary_expr` (parse_primary_expr.c, lines 27-110).  Memory allocation
is assumed to succeed (on failure the C code leaves the process). -/
def parse_primary_expr {F : Type} (env : Env F) (parser : Parser) :
    Option (AstNode F) × Parser :=
  let (token, parser) := eat parser
  let line := (at_ parser).line
  let column_start := (at_ parser).column_start
  let column_end := (at_ parser).column_end
  let position_start := (at_ parser).position_start
  let position_end := (at_ parser).position_end
  match token.type with
  | .TOKEN_NUMBER =>
    match token.lexeme with
    | none => (none, env.error parser "Invalid number lexeme")
    | some lexeme =>
      if strlen lexeme = 0 then
        (none, env.error parser "Invalid number lexeme")
      else
        let numeric_data : NumericLiteralNode F :=
          if token.message = "decimal" then
            { value := env.strtod lexeme, decimal := true }
          else
            { value := env.ofInt (atoi lexeme), decimal := false }
        (some (create_ast_node .NODE_NUMERIC_LITERAL (.numeric numeric_data)
          line column_start position_start column_end position_end), parser)
  | .TOKEN_IDENTIFIER =>
    match token.lexeme with
    | none => (none, env.error parser "Invalid identifier lexeme")
    | some lexeme =>
      if strlen lexeme = 0 then
        (none, env.error parser "Invalid identifier lexeme")
      else
        let identifier_data : IdentifierNode := { symbol := lexeme }
        (some (create_ast_node .NODE_IDENTIFIER (.identifier identifier_data)
          line column_start position_start column_end position_end), parser)
  | .TOKEN_OPAREN =>
    match env.parse_expr parser with
    | (none, parser) =>
      (none, env.error parser "Failed to parse expression inside parentheses")
    | (some node, parser) =>
      let (_, parser) := env.expect parser .TOKEN_CPAREN "Expected closing parenthesis"
      (some node, parser)
  | _ =>
    let parser := printf parser ("Error token: " ++ fmt_s token.lexeme)
    (none, env.error parser "Unexpected token in primary expression")

/-! ## Reference collaborators -/

/-- Modelled from the spec: `error` of the parser core (`report_error`), defined
outside the embedded files.  The spec says it records a diagnostic and marks the
parse as failed, and that it does not end the process; here the diagnostic is
appended to the parser's list, and a non-empty list marks the failure. -/
def report_error (parser : Parser) (message : String) : Parser :=
  { parser with diagnostics := parser.diagnostics ++ [message] }

/-- Modelled from the spec: `expect` of the parser core (`expect_token`), defined
outside the embedded files.  The spec says it consumes or fails: the token under
the cursor is consumed, and a token of another kind than the expected one is
reported. -/
def expect_token (parser : Parser) (type : TokenType) (message : String) : Token × Parser :=
  let (token, parser) := eat parser
  if token.type = type then (token, parser) else (token, report_error parser message)

/-- An error reporter records its diagnostic: the message becomes the last entry
of the diagnostics.  This is all the spec fixes about the reporter. -/
def RecordsDiagnostic (error : Parser → String → Parser) : Prop :=
  ∀ parser message, (error parser message).diagnostics = parser.diagnostics ++ [message]

/-- The symbolic `double`: the two conversions the parser applies, kept as
terms.  It instantiates `F` where a concrete value is needed. -/
abbrev SymDouble := String ⊕ Int

/-- The collaborators with the reference reporter and `expect`, the symbolic
conversions, and an expression parser that parses nothing. -/
def env_base : Env SymDouble :=
  { strtod := Sum.inl, ofInt := Sum.inr, error := report_error,
    expect := expect_token, parse_expr := fun parser => (none, parser) }

/-- Modelled from the spec: `parse_expr` on a token stream that holds a lone
primary expression.  The general expression parser is defined outside the
embedded files; on such a stream its chain of sub-parsers ends in
`parse_primary_expr` and, no operator following, hands that node back unchanged. -/
def env_primary : Env SymDouble :=
  { env_base with parse_expr := parse_primary_expr env_base }

/-- A token with a given kind, text, tag and column range on line 1; byte offsets
are the columns counted from 0. -/
def mk_token (type : TokenType) (lexeme : String) (message : String)
    (column_start column_end : Int) : Token :=
  { type := type, lexeme := some lexeme, message := message, line := 1,
    column_start := column_start, column_end := column_end,
    position_start := column_start - 1, position_end := column_end - 1 }

/-- The end-of-input token a lexer appends at a given column. -/
def eof_token (column : Int) : Token :=
  { type := .TOKEN_OTHER 0, lexeme := some "EOF", message := "", line := 1,
    column_start := column, column_end := column,
    position_start := column - 1, position_end := column - 1 }

/-- A parser at the start of a token stream, nothing reported or printed yet. -/
def Parser.start (tokens : List Token) : Parser :=
  { tokens := tokens, index := 0, diagnostics := [], stdout := [] }

/-- Token stream of the input `42`. -/
def tokens_42 : List Token :=
  [mk_token .TOKEN_NUMBER "42" "integer" 1 3, eof_token 3]

/-- Token stream of the input `3.14`, the number tagged decimal. -/
def tokens_3_14 : List Token :=
  [mk_token .TOKEN_NUMBER "3.14" "decimal" 1 5, eof_token 5]

/-- Token stream of the input `count`. -/
def tokens_count : List Token :=
  [mk_token .TOKEN_IDENTIFIER "count" "" 1 6, eof_token 6]

/-- Token stream of the input `(42)`. -/
def tokens_paren_42 : List Token :=
  [mk_token .TOKEN_OPAREN "(" "" 1 2, mk_token .TOKEN_NUMBER "42" "integer" 2 4,
   mk_token .TOKEN_CPAREN ")" "" 4 5, eof_token 5]

/-- Token stream of the input `(42`, the closing parenthesis missing. -/
def tokens_open_42 : List Token :=
  [mk_token .TOKEN_OPAREN "(" "" 1 2, mk_token .TOKEN_NUMBER "42" "integer" 2 4,
   eof_token 4]

/-- Token stream of the input `)`. -/
def tokens_cparen : List Token :=
  [mk_token .TOKEN_CPAREN ")" "" 1 2, eof_token 2]

/-- Token stream of the input `()`. -/
def tokens_paren_empty : List Token :=
  [mk_token .TOKEN_OPAREN "(" "" 1 2, mk_token .TOKEN_CPAREN ")" "" 2 3, eof_token 3]

/-- A number token whose text is empty, followed by the end of input. -/
def tokens_empty_number : List Token :=
  [mk_token .TOKEN_NUMBER "" "integer" 1 1, eof_token 1]

/-! ## Bounds-checked token reads -/

/-- The read of `at` with the bound checked: the token under the cursor, or `none`
when the cursor stands at or past the end of the token array. -/
def at_checked (parser : Parser) : Option Token :=
  parser.tokens[parser.index]?

/-- The read of `eat` with the bound checked: `none` when the cursor stands at or
past the end of the token array. -/
def eat_checked (parser : Parser) : Option (Token × Parser) :=
  match parser.tokens[parser.index]? with
  | none => none
  | some token => some (token, { parser with index := parser.index + 1 })

/-- The token accesses of `parse_primary_expr` (parse_primary_expr.c, lines
28-34), which come before the dispatch, with every bound checked: the consumed
token and the five position fields read through `at`, or `none` as soon as one of
the reads falls outside the token array. -/
def primary_reads_checked (parser : Parser) : Option (Token × Int × Int × Int × Int × Int) :=
  match eat_checked parser with
  | none => none
  | some (token, parser) =>
    match at_checked parser with
    | none => none
    | some t1 =>
      let line := t1.line
      match at_checked parser with
      | none => none
      | some t2 =>
        let column_start := t2.column_start
        match at_checked parser with
        | none => none
        | some t3 =>
          let column_end := t3.column_end
          match at_checked parser with
          | none => none
          | some t4 =>
            let position_start := t4.position_start
            match at_checked parser with
            | none => none
            | some t5 =>
              let position_end := t5.position_end
              some (token, line, column_start, column_end, position_start, position_end)

/-- Token stream of the input `(`: the open parenthesis and the end of input. -/
def tokens_open : List Token :=
  [mk_token .TOKEN_OPAREN "(" "" 1 2, eof_token 2]

/-! ## AST printer: data

A shallow embedding of `src/frontend/parser/printer/print_ast.c`.  Nodes live in a
heap and are referred to by their address, so that a graph may share nodes and
contain cycles.  The text written on standard output is returned as a list of
lines, each labelled with the `printf` call it comes from. -/

/-- The node store: a node's address is its index. -/
abbrev Heap (F : Type) := List (AstNode F)

/-- Modelled from the spec: `VisitedNodes` of `parser/printer/visited.h`, defined
outside the embedded files: the node identities marked so far, in the order of
marking. -/
abbrev VisitedNodes := List NodeRef

/-- Modelled from the spec: `init_visited`, defined outside the embedded files.
It makes the set empty, whatever the storage held before. -/
def init_visited (_storage : VisitedNodes) : VisitedNodes := []

/-- Modelled from the spec: `is_visited`, defined outside the embedded files:
membership of a node identity. -/
def is_visited (visited : VisitedNodes) (node : NodeRef) : Bool :=
  visited.contains node

/-- Modelled from the spec: `mark_visited`, defined outside the embedded files:
the node identity is added to the set. -/
def mark_visited (visited : VisitedNodes) (node : NodeRef) : VisitedNodes :=
  visited ++ [node]

/-- Modelled from the spec: `free_visited`, defined outside the embedded files:
the set is released. -/
def free_visited (_visited : VisitedNodes) : VisitedNodes := []

/-- A line of output, by the statement that prints it. -/
inductive Line where
  | banner
  | node_type (depth : Nat) (name : String)
  | value_unknown (depth : Nat)
  | child_null (index : Nat)
  | payload (text : String)
  deriving DecidableEq, Repr

/-- Modelled from the spec: `print_indent` of `parser/printer/print_indent.h`,
defined outside the embedded files: an indentation proportional to the depth,
`tab` being the text of one level. -/
def print_indent (tab : String) (depth : Nat) : String :=
  String.join (List.replicate depth tab)

/-- The text of a line. -/
def Line.text (tab : String) : Line → String
  | .banner => "AST:"
  | .node_type depth name => print_indent tab depth ++ "Node Type: " ++ name
  | .value_unknown depth => print_indent tab depth ++ "Value: Unknown or no data"
  | .child_null index => "Child " ++ toString index ++ " is NULL"
  | .payload text => text

/-- What a kind-specific renderer does, step by step: it prints a line of text, or
it hands a node it holds to the guarded traversal `print_ast_node` at some depth. -/
inductive RenderStep where
  | text (line : String)
  | visit (node : Option NodeRef) (depth : Nat)
  deriving DecidableEq, Repr

/-- The kind-specific renderers, which are external to `print_ast.c`.  A renderer
receives the node (its address and its content) and the depth.  Those that are
passed the visited set may traverse nodes; the others only print. -/
structure Renderers (F : Type) where
  print_program : NodeRef → AstNode F → Nat → List RenderStep
  print_assignment : NodeRef → AstNode F → Nat → List RenderStep
  print_object : NodeRef → AstNode F → Nat → List RenderStep
  print_property : NodeRef → AstNode F → Nat → List RenderStep
  print_pre_decrement : NodeRef → AstNode F → Nat → List RenderStep
  print_package : NodeRef → AstNode F → Nat → List String
  print_import : NodeRef → AstNode F → Nat → List String
  print_numeric_literal : NodeRef → AstNode F → Nat → List String
  print_identifier : NodeRef → AstNode F → Nat → List String
  print_binary_expr : NodeRef → AstNode F → Nat → List RenderStep

/-- One effect of `print_ast_node` on a node: a line printed, or a recursive call
of `print_ast_node`. -/
inductive Action where
  | line (l : Line)
  | visit (node : Option NodeRef) (depth : Nat)
  deriving DecidableEq, Repr

/-- The steps of a renderer that is passed the visited set, as actions. -/
def render_steps (steps : List RenderStep) : List Action :=
  steps.map fun
    | .text line => Action.line (Line.payload line)
    | .visit node depth => Action.visit node depth

/-- The lines of a renderer that only prints, as actions. -/
def render_lines (lines : List String) : List Action :=
  lines.map fun line => Action.line (Line.payload line)

/-! ## AST printer: `print_ast.c` -/

/-- `returnASTNodeName` (print_ast.c, lines 27-40). -/
def returnASTNodeName (node_type : NodeType) : String :=
  match node_type with
  | .NODE_PROGRAM => "Program"
  | .NODE_NUMERIC_LITERAL => "Numeric Literal"
  | .NODE_IDENTIFIER => "Identifier"
  | .NODE_BINARY_EXPR => "Binary Expression"
  | .NODE_PACKAGE => "Package Statement"
  | .NODE_IMPORT => "Import Statement"
  | .NODE_ASSIGNMENT => "Assignment Expression"
  | .NODE_OBJECT => "Object Expression"
  | .NODE_PROPERTY => "Property"
  | _ => "Unknown"

/-- The `switch` of `print_ast_node` (print_ast.c, lines 59-115): the actions of
the renderer the kind is dispatched to, or the generic line of the default
branch. -/
def node_switch {F : Type} (R : Renderers F) (ref : NodeRef) (node : AstNode F)
    (depth : Nat) : List Action :=
  match node.kind with
  | .NODE_PROGRAM => render_steps (R.print_program ref node depth)
  | .NODE_ASSIGNMENT => render_steps (R.print_assignment ref node depth)
  | .NODE_OBJECT => render_steps (R.print_object ref node depth)
  | .NODE_PROPERTY => render_steps (R.print_property ref node depth)
  | .NODE_PRE_DECREMENT => render_steps (R.print_pre_decrement ref node depth)
  | .NODE_PACKAGE => render_lines (R.print_package ref node depth)
  | .NODE_IMPORT => render_lines (R.print_import ref node depth)
  | .NODE_NUMERIC_LITERAL => render_lines (R.print_numeric_literal ref node depth)
  | .NODE_IDENTIFIER => render_lines (R.print_identifier ref node depth)
  | .NODE_BINARY_EXPR => render_steps (R.print_binary_expr ref node depth)
  | _ => [Action.line (Line.value_unknown (depth + 1))]

/-- The loop over the child sequence of `print_ast_node` (print_ast.c, lines
117-125), from index `i` on: a recursive call at `depth + 1` for a non-null child,
the line `Child i is NULL` for a null entry. -/
def children_loop (depth : Nat) : Nat → List (Option NodeRef) → List Action
  | _, [] => []
  | i, some child :: rest =>
    Action.visit (some child) (depth + 1) :: children_loop depth (i + 1) rest
  | i, none :: rest =>
    Action.line (Line.child_null i) :: children_loop depth (i + 1) rest

/-- Everything `print_ast_node` does on a node after its `Node Type` line: the
`switch`, then the loop over the children. -/
def node_actions {F : Type} (R : Renderers F) (ref : NodeRef) (node : AstNode F)
    (depth : Nat) : List Action :=
  node_switch R ref node depth ++ children_loop depth 0 node.children

/-- Actions carried out in order, `visit` being the traversal used for the
recursive calls.  The result is the visited set afterwards and the lines printed;
`none` when a recursive call did not return. -/
def run_actions (visit : Option NodeRef → Nat → VisitedNodes → Option (VisitedNodes × List Line)) :
    List Action → VisitedNodes → Option (VisitedNodes × List Line)
  | [], visited => some (visited, [])
  | .line l :: rest, visited =>
    match run_actions visit rest visited with
    | none => none
    | some (visited, out) => some (visited, l :: out)
  | .visit node depth :: rest, visited =>
    match visit node depth visited with
    | none => none
    | some (visited, out) =>
      match run_actions visit rest visited with
      | none => none
      | some (visited, out_rest) => some (visited, out ++ out_rest)

/-- `print_ast_node` (print_ast.c, lines 52-126), with a bound `fuel` on the
depth of the recursion: `none` means the bound was reached.  A reference that
addresses no node of the heap is a dangling pointer, which C leaves undefined;
the model prints nothing for it. -/
def print_ast_node {F : Type} (R : Renderers F) (heap : Heap F) :
    Nat → Option NodeRef → Nat → VisitedNodes → Option (VisitedNodes × List Line)
  | 0, _, _, _ => none
  | fuel + 1, node, depth, visited =>
    match node with
    | none => some (visited, [])
    | some ref =>
      if is_visited visited ref then some (visited, [])
      else
        match heap[ref]? with
        | none => some (visited, [])
        | some n =>
          let visited := mark_visited visited ref
          match run_actions (print_ast_node R heap fuel) (node_actions R ref n depth) visited with
          | none => none
          | some (visited, out) =>
            some (visited, Line.node_type depth (returnASTNodeName n.kind) :: out)

/-- `print_ast` (print_ast.c, lines 136-142).  `storage` is what the memory of the
local variable `visited` holds when the function is entered.  The result is the
lines printed and what that memory holds at the end.  The recursion is given the
bound `heap.length + 1`, which it never reaches. -/
def print_ast {F : Type} (R : Renderers F) (heap : Heap F) (root : Option NodeRef)
    (storage : VisitedNodes) : Option (List Line × VisitedNodes) :=
  let visited := init_visited storage
  match print_ast_node R heap (heap.length + 1) root 0 visited with
  | none => none
  | some (visited, out) => some (Line.banner :: out, free_visited visited)

/-- The number of nodes of the heap not yet in the visited set. -/
def unvisited {F : Type} (heap : Heap F) (visited : VisitedNodes) : Nat :=
  ((Finset.range heap.length).filter fun ref => ref ∉ visited).card

/-- The names on the `Node Type` lines of an output, in order. -/
def rendered_names (out : List Line) : List String :=
  out.filterMap fun
    | .node_type _ name => some name
    | _ => none

/-- The display name of the node at an address (empty for a dangling address). -/
def node_name {F : Type} (heap : Heap F) (ref : NodeRef) : String :=
  match heap[ref]? with
  | some n => returnASTNodeName n.kind
  | none => ""

/-- One step of the traversal: `print_ast_node` on the node at `ref` calls itself
on `child`. -/
def Edge {F : Type} (R : Renderers F) (heap : Heap F) (ref child : NodeRef) : Prop :=
  ∃ n depth d, heap[ref]? = some n ∧ Action.visit (some child) d ∈ node_actions R ref n depth

/-- The nodes reachable from a node through the traversal. -/
inductive Reach {F : Type} (R : Renderers F) (heap : Heap F) : NodeRef → NodeRef → Prop where
  | refl (ref : NodeRef) : Reach R heap ref ref
  | step (ref mid child : NodeRef) : Reach R heap ref mid → Edge R heap mid child →
      Reach R heap ref child

/-- A forest of leaf-kind nodes in the heap: `Forest heap children refs` says that
`children` is a sequence of non-null references to nodes of kind NumericLiteral or
Identifier whose child sequences are again such forests, and that `refs` lists the
nodes of the forest in depth-first pre-order. -/
inductive Forest {F : Type} (heap : Heap F) : List (Option NodeRef) → List NodeRef → Prop where
  | nil : Forest heap [] []
  | cons (child : NodeRef) (n : AstNode F) (rest : List (Option NodeRef))
      (below after : List NodeRef) :
      heap[child]? = some n →
      (n.kind = .NODE_NUMERIC_LITERAL ∨ n.kind = .NODE_IDENTIFIER) →
      Forest heap n.children below → Forest heap rest after →
      Forest heap (some child :: rest) (child :: below ++ after)

/-- A leaf node with a kind, a payload and children, at line 1. -/
def mk_node (kind : NodeType) (data : NodeData SymDouble) (children : List (Option NodeRef)) :
    AstNode SymDouble :=
  { kind := kind, data := data, line := 1, column_start := 1, position_start := 0,
    column_end := 1, position_end := 0, children := children }

/-- Sample renderers: an identifier prints its symbol, a numeric literal whether
it is decimal, a pre-decrement traverses the first entry of its child sequence,
the others print nothing. -/
def renderers_sample : Renderers SymDouble :=
  { print_program := fun _ _ _ => [],
    print_assignment := fun _ _ _ => [],
    print_object := fun _ _ _ => [],
    print_property := fun _ _ _ => [],
    print_pre_decrement := fun _ n depth =>
      [RenderStep.text "Operand:", RenderStep.visit (n.children.headD none) (depth + 1)],
    print_package := fun _ _ _ => [],
    print_import := fun _ _ _ => [],
    print_numeric_literal := fun _ n _ =>
      match n.data with
      | .numeric d => [if d.decimal then "Decimal: true" else "Decimal: false"]
      | _ => [],
    print_identifier := fun _ n _ =>
      match n.data with
      | .identifier d => ["Symbol: " ++ d.symbol]
      | _ => [],
    print_binary_expr := fun _ _ _ => [] }

/-- A graph with sharing and a cycle: node 0 (a program) lists node 1 twice, then
a null entry, then node 2; node 1 (an identifier) lists node 0, its own ancestor;
node 2 is a numeric literal. -/
def heap_cyclic : Heap SymDouble :=
  [mk_node .NODE_PROGRAM .other [some 1, some 1, none, some 2],
   mk_node .NODE_IDENTIFIER (.identifier { symbol := "x" }) [some 0],
   mk_node .NODE_NUMERIC_LITERAL (.numeric { value := Sum.inr 42, decimal := false }) []]

/-- A tree of literals and identifiers: node 0 (an identifier) with the children
1 (a numeric literal, itself with the child 2, an identifier) and 3 (a numeric
literal). -/
def heap_tree : Heap SymDouble :=
  [mk_node .NODE_IDENTIFIER (.identifier { symbol := "a" }) [some 1, some 3],
   mk_node .NODE_NUMERIC_LITERAL (.numeric { value := Sum.inr 1, decimal := false }) [some 2],
   mk_node .NODE_IDENTIFIER (.identifier { symbol := "b" }) [],
   mk_node .NODE_NUMERIC_LITERAL (.numeric { value := Sum.inl "2.5", decimal := true }) []]

/-- A node of kind PreDecrement whose operand is an identifier, and a node of a
kind the printer has no renderer for. -/
def heap_pre_decrement : Heap SymDouble :=
  [mk_node .NODE_PRE_DECREMENT .other [some 1],
   mk_node .NODE_IDENTIFIER (.identifier { symbol := "i" }) [],
   mk_node (.NODE_OTHER 0) .other []]

/-- The lines that `print_ast_node` prints after the `Node Type` line of a node
and outside its recursive calls: payload lines, the generic line, and the
placeholder of a null child. -/
def Line.plain : Line → Bool
  | .payload _ => true
  | .value_unknown _ => true
  | .child_null _ => true
  | _ => false

/-- The kind of the node at an address. -/
def kind_at {F : Type} (heap : Heap F) (ref : NodeRef) : Option NodeType :=
  match heap[ref]? with
  | some n => some n.kind
  | none => none

/-- The integer a run of decimal digits denotes, most significant digit first. -/
def decimal_value (digits : List Char) : Nat :=
  Nat.ofDigits 10 (digits.reverse.map fun c => c.toNat - 48)

/-- What a returned call of the traversal has done, from the visited set `before`
to the visited set `after` with the lines `out`: the nodes it marked come after
those marked before, none of them was marked before, none is marked twice, each is
a node of the heap, the `Node Type` lines of `out` are theirs, one for one and in
the same order, and `out` has no banner. -/
def Traversed {F : Type} (heap : Heap F) (before after : VisitedNodes) (out : List Line) : Prop :=
  ∃ added : List NodeRef, after = before ++ added ∧ (∀ r ∈ added, r ∉ before) ∧
    added.Nodup ∧ (∀ r ∈ added, r < heap.length) ∧
    rendered_names out = added.map (node_name heap) ∧ Line.banner ∉ out

/-- A number token tagged integer with the given text, followed by the end of
input. -/
def tokens_integer (lexeme : String) : List Token :=
  [mk_token .TOKEN_NUMBER lexeme "integer" 1 1, eof_token 1]

/-! ## Branch lemmas -/

theorem strlen_eq_zero_iff (s : String) : strlen s = 0 ↔ s = "" := by
  unfold strlen
  rw [String.ext_iff]
  show s.data.length = 0 ↔ s.data = []
  exact List.length_eq_zero

theorem at_eq_eat_fst (parser : Parser) : at_ parser = (eat parser).1 := rfl

theorem eat_snd_index (parser : Parser) : (eat parser).2.index = parser.index + 1 := rfl

theorem eat_snd_tokens (parser : Parser) : (eat parser).2.tokens = parser.tokens := rfl

/-- The number branch on a non-empty lexeme. -/
theorem primary_number_ok {F : Type} (env : Env F) (parser : Parser) (lexeme : String)
    (hkind : (at_ parser).type = .TOKEN_NUMBER)
    (hlex : (at_ parser).lexeme = some lexeme) (hne : lexeme ≠ "") :
    parse_primary_expr env parser =
      (some (create_ast_node .NODE_NUMERIC_LITERAL
        (.numeric (if (at_ parser).message = "decimal" then
            { value := env.strtod lexeme, decimal := true }
          else { value := env.ofInt (atoi lexeme), decimal := false }))
        (at_ (eat parser).2).line (at_ (eat parser).2).column_start
        (at_ (eat parser).2).position_start (at_ (eat parser).2).column_end
        (at_ (eat parser).2).position_end), (eat parser).2) := by
  have hlen : ¬ strlen lexeme = 0 := fun h => hne ((strlen_eq_zero_iff lexeme).1 h)
  rw [at_eq_eat_fst] at hkind hlex
  simp only [parse_primary_expr, hkind, hlex, hlen, if_false]
  rfl

/-- The identifier branch on a non-empty lexeme. -/
theorem primary_identifier_ok {F : Type} (env : Env F) (parser : Parser) (lexeme : String)
    (hkind : (at_ parser).type = .TOKEN_IDENTIFIER)
    (hlex : (at_ parser).lexeme = some lexeme) (hne : lexeme ≠ "") :
    parse_primary_expr env parser =
      (some (create_ast_node .NODE_IDENTIFIER (.identifier { symbol := lexeme })
        (at_ (eat parser).2).line (at_ (eat parser).2).column_start
        (at_ (eat parser).2).position_start (at_ (eat parser).2).column_end
        (at_ (eat parser).2).position_end), (eat parser).2) := by
  have hlen : ¬ strlen lexeme = 0 := fun h => hne ((strlen_eq_zero_iff lexeme).1 h)
  rw [at_eq_eat_fst] at hkind hlex
  simp only [parse_primary_expr, hkind, hlex, hlen, if_false]

/-- The number branch on a null or empty lexeme. -/
theorem primary_number_bad {F : Type} (env : Env F) (parser : Parser)
    (hkind : (at_ parser).type = .TOKEN_NUMBER)
    (hlex : (at_ parser).lexeme = none ∨ (at_ parser).lexeme = some "") :
    parse_primary_expr env parser = (none, env.error (eat parser).2 "Invalid number lexeme") := by
  have hlen : strlen "" = 0 := (strlen_eq_zero_iff "").2 rfl
  rw [at_eq_eat_fst] at hkind hlex
  rcases hlex with hlex | hlex <;>
    simp only [parse_primary_expr, hkind, hlex, hlen, if_true]

/-- The identifier branch on a null or empty lexeme. -/
theorem primary_identifier_bad {F : Type} (env : Env F) (parser : Parser)
    (hkind : (at_ parser).type = .TOKEN_IDENTIFIER)
    (hlex : (at_ parser).lexeme = none ∨ (at_ parser).lexeme = some "") :
    parse_primary_expr env parser =
      (none, env.error (eat parser).2 "Invalid identifier lexeme") := by
  have hlen : strlen "" = 0 := (strlen_eq_zero_iff "").2 rfl
  rw [at_eq_eat_fst] at hkind hlex
  rcases hlex with hlex | hlex <;>
    simp only [parse_primary_expr, hkind, hlex, hlen, if_true]

/-- The parenthesis branch when the inner parse yields no node. -/
theorem primary_paren_none {F : Type} (env : Env F) (parser inner : Parser)
    (hkind : (at_ parser).type = .TOKEN_OPAREN)
    (hexpr : env.parse_expr (eat parser).2 = (none, inner)) :
    parse_primary_expr env parser =
      (none, env.error inner "Failed to parse expression inside parentheses") := by
  rw [at_eq_eat_fst] at hkind
  simp only [parse_primary_expr, hkind, hexpr]

/-- The parenthesis branch when the inner parse yields a node. -/
theorem primary_paren_some {F : Type} (env : Env F) (parser inner : Parser) (node : AstNode F)
    (hkind : (at_ parser).type = .TOKEN_OPAREN)
    (hexpr : env.parse_expr (eat parser).2 = (some node, inner)) :
    parse_primary_expr env parser =
      (some node, (env.expect inner .TOKEN_CPAREN "Expected closing parenthesis").2) := by
  rw [at_eq_eat_fst] at hkind
  simp only [parse_primary_expr, hkind, hexpr]

/-- The default branch. -/
theorem primary_other {F : Type} (env : Env F) (parser : Parser)
    (hnum : (at_ parser).type ≠ .TOKEN_NUMBER) (hid : (at_ parser).type ≠ .TOKEN_IDENTIFIER)
    (hpar : (at_ parser).type ≠ .TOKEN_OPAREN) :
    parse_primary_expr env parser =
      (none, env.error (printf (eat parser).2 ("Error token: " ++ fmt_s (at_ parser).lexeme))
        "Unexpected token in primary expression") := by
  rw [at_eq_eat_fst] at hnum hid hpar
  simp only [parse_primary_expr]
  rfl

/-- The reference reporter records its diagnostic. -/
theorem report_error_records : RecordsDiagnostic report_error :=
  fun _ _ => rfl

/-! ## Numeric literals and identifiers -/

/-- The result of `atoi` lies in the range of `int`. -/
theorem atoi_int_range (s : String) : -2147483648 ≤ atoi s ∧ atoi s ≤ 2147483647 := by
  unfold atoi int_of_long
  omega

/-- C1.  A NUMBER token with a non-empty lexeme parses to a present node of kind
NumericLiteral; its payload has `decimal = true` exactly when the token's tag
`message` is "decimal", and its value is the conversion the tag selects: `strtod`
of the lexeme for a decimal, `atoi` of the lexeme, a 32-bit `int` (converted to
`double`), otherwise. -/
theorem parse_primary_expr_numeric_literal {F : Type} (env : Env F) (parser : Parser)
    (lexeme : String)
    (hkind : (at_ parser).type = .TOKEN_NUMBER)
    (hlex : (at_ parser).lexeme = some lexeme) (hne : lexeme ≠ "") :
    ∃ node : AstNode F, (parse_primary_expr env parser).1 = some node ∧
      node.kind = .NODE_NUMERIC_LITERAL ∧
      ∃ payload : NumericLiteralNode F, node.data = .numeric payload ∧
        (payload.decimal = true ↔ (at_ parser).message = "decimal") ∧
        ((at_ parser).message = "decimal" → payload.value = env.strtod lexeme) ∧
        ((at_ parser).message ≠ "decimal" → payload.value = env.ofInt (atoi lexeme) ∧
          -2147483648 ≤ atoi lexeme ∧ atoi lexeme ≤ 2147483647) := by
  rw [primary_number_ok env parser lexeme hkind hlex hne]
  refine ⟨_, rfl, rfl, _, rfl, ?_, ?_, ?_⟩
  · by_cases h : (at_ parser).message = "decimal" <;> simp [h]
  · intro h; simp [h]
  · intro h
    exact ⟨by simp [h], atoi_int_range lexeme⟩

/-- C1, at the inputs `42` (tagged integer), `3.14` (tagged decimal) and
`99999999999` (tagged integer, outside the range of `int`): the first gives the
value of the integer 42 with `decimal = false`, the second the `strtod` conversion
of "3.14" with `decimal = true`, the third the value 1215752191 that remains of
99999999999 in 32 bits. -/
theorem parse_primary_expr_numeric_literal_witness :
    (∃ node : AstNode SymDouble,
      (parse_primary_expr env_primary (Parser.start tokens_42)).1 = some node ∧
      node.kind = .NODE_NUMERIC_LITERAL ∧
      node.data = .numeric { value := env_primary.ofInt 42, decimal := false }) ∧
    (∃ node : AstNode SymDouble,
      (parse_primary_expr env_primary (Parser.start tokens_3_14)).1 = some node ∧
      node.kind = .NODE_NUMERIC_LITERAL ∧
      node.data = .numeric { value := env_primary.strtod "3.14", decimal := true }) ∧
    (∃ node : AstNode SymDouble,
      (parse_primary_expr env_primary (Parser.start (tokens_integer "99999999999"))).1 =
        some node ∧
      node.kind = .NODE_NUMERIC_LITERAL ∧
      node.data = .numeric { value := env_primary.ofInt 1215752191, decimal := false }) := by
  refine ⟨?_, ?_, ?_⟩
  · obtain ⟨node, hnode, hk, payload, hdata, hdec, _, hint⟩ :=
      parse_primary_expr_numeric_literal env_primary (Parser.start tokens_42) "42"
        (by decide) (by decide) (by decide)
    refine ⟨node, hnode, hk, ?_⟩
    have h1 : payload.decimal = false := by
      cases hd : payload.decimal
      · rfl
      · exact absurd (hdec.1 hd) (by decide)
    have h2 : payload.value = env_primary.ofInt 42 := (hint (by decide)).1
    rw [hdata]
    cases payload
    simp_all
  · obtain ⟨node, hnode, hk, payload, hdata, hdec, hstr, _⟩ :=
      parse_primary_expr_numeric_literal env_primary (Parser.start tokens_3_14) "3.14"
        (by decide) (by decide) (by decide)
    refine ⟨node, hnode, hk, ?_⟩
    have h1 : payload.decimal = true := hdec.2 (by decide)
    have h2 : payload.value = env_primary.strtod "3.14" := hstr (by decide)
    rw [hdata]
    cases payload
    simp_all
  · obtain ⟨node, hnode, hk, payload, hdata, hdec, _, hint⟩ :=
      parse_primary_expr_numeric_literal env_primary
        (Parser.start (tokens_integer "99999999999")) "99999999999"
        (by decide) (by decide) (by decide)
    refine ⟨node, hnode, hk, ?_⟩
    have h1 : payload.decimal = false := by
      cases hd : payload.decimal
      · rfl
      · exact absurd (hdec.1 hd) (by decide)
    have h2 : payload.value = env_primary.ofInt 1215752191 := (hint (by decide)).1
    rw [hdata]
    cases payload
    simp_all

/-- C2.  An IDENTIFIER token with a non-empty lexeme parses to a present node of
kind Identifier whose payload symbol is the lexeme itself. -/
theorem parse_primary_expr_identifier {F : Type} (env : Env F) (parser : Parser)
    (lexeme : String)
    (hkind : (at_ parser).type = .TOKEN_IDENTIFIER)
    (hlex : (at_ parser).lexeme = some lexeme) (hne : lexeme ≠ "") :
    ∃ node : AstNode F, (parse_primary_expr env parser).1 = some node ∧
      node.kind = .NODE_IDENTIFIER ∧
      node.data = .identifier { symbol := lexeme } := by
  rw [primary_identifier_ok env parser lexeme hkind hlex hne]
  exact ⟨_, rfl, rfl, rfl⟩

/-- C2, at the input `count`: the symbol of the node is "count". -/
theorem parse_primary_expr_identifier_witness :
    ∃ node : AstNode SymDouble,
      (parse_primary_expr env_primary (Parser.start tokens_count)).1 = some node ∧
      node.kind = .NODE_IDENTIFIER ∧
      node.data = .identifier { symbol := "count" } :=
  parse_primary_expr_identifier env_primary (Parser.start tokens_count) "count"
    (by decide) (by decide) (by decide)

/-! ## Parenthesised expressions -/

/-- C3.  What the code does where the claim expects an absent result: when the
current token is OPEN_PAREN, the inner `parse_expr` yields a node, and the token
after it is not CLOSE_PAREN, `parse_primary_expr` still returns that node; the
outcome of `expect` is not looked at, whatever `expect` does. -/
theorem parse_primary_expr_unclosed_paren_returns_node {F : Type} (env : Env F)
    (parser inner : Parser) (node : AstNode F)
    (hkind : (at_ parser).type = .TOKEN_OPAREN)
    (hexpr : env.parse_expr (eat parser).2 = (some node, inner))
    (_hnext : (at_ inner).type ≠ .TOKEN_CPAREN) :
    (parse_primary_expr env parser).1 = some node := by
  rw [primary_paren_some env parser inner node hkind hexpr]

/-- C3, at the input `(42`: the missing parenthesis is reported, and the call
returns the node of `42` all the same. -/
theorem parse_primary_expr_unclosed_paren_returns_node_witness :
    (parse_primary_expr env_primary (Parser.start tokens_open_42)).1 =
        some (create_ast_node .NODE_NUMERIC_LITERAL
          (.numeric { value := env_primary.ofInt 42, decimal := false }) 1 4 3 4 3) ∧
      (parse_primary_expr env_primary (Parser.start tokens_open_42)).2.diagnostics =
        ["Expected closing parenthesis"] :=
  ⟨parse_primary_expr_unclosed_paren_returns_node env_primary (Parser.start tokens_open_42)
      (env_primary.parse_expr (eat (Parser.start tokens_open_42)).2).2
      (create_ast_node .NODE_NUMERIC_LITERAL
        (.numeric { value := env_primary.ofInt 42, decimal := false }) 1 4 3 4 3)
      (by decide) (by decide) (by decide),
    by decide⟩

/-- C4, as stated, fails: with the positions a lexer gives the tokens, the node
of `(42)` and the node of `42` are different nodes, because their spans differ. -/
theorem paren_42_node_differs_from_bare_42 :
    (parse_primary_expr env_primary (Parser.start tokens_paren_42)).1 ≠
      (parse_primary_expr env_primary (Parser.start tokens_42)).1 := by
  decide

/-- C4, amended.  On the OPEN_PAREN path with a following CLOSE_PAREN the
returned node is exactly the node of the inner `parse_expr` call, with no wrapper
node; and the node of `(42)` has the same kind, payload and children as the node
of bare `42`, while each of the two carries the span of the token that follows
the literal in its own stream (the close parenthesis, the end of input). -/
theorem parse_primary_expr_paren_transparent :
    (∀ (F : Type) (env : Env F) (parser inner : Parser) (node : AstNode F),
      (at_ parser).type = .TOKEN_OPAREN →
      env.parse_expr (eat parser).2 = (some node, inner) →
      (at_ inner).type = .TOKEN_CPAREN →
      (parse_primary_expr env parser).1 = some node) ∧
    (∃ wrapped bare : AstNode SymDouble,
      (parse_primary_expr env_primary (Parser.start tokens_paren_42)).1 = some wrapped ∧
      (parse_primary_expr env_primary (Parser.start tokens_42)).1 = some bare ∧
      wrapped.kind = bare.kind ∧ wrapped.data = bare.data ∧
      wrapped.children = bare.children ∧
      (wrapped.column_start, wrapped.column_end, wrapped.position_start,
        wrapped.position_end) = (4, 5, 3, 4) ∧
      (bare.column_start, bare.column_end, bare.position_start,
        bare.position_end) = (3, 3, 2, 2)) := by
  constructor
  · intro F env parser inner node hkind hexpr _
    rw [primary_paren_some env parser inner node hkind hexpr]
  · exact ⟨create_ast_node .NODE_NUMERIC_LITERAL
        (.numeric { value := env_primary.ofInt 42, decimal := false }) 1 4 3 5 4,
      create_ast_node .NODE_NUMERIC_LITERAL
        (.numeric { value := env_primary.ofInt 42, decimal := false }) 1 3 2 3 2,
      by decide, by decide, rfl, rfl, rfl, by decide, by decide⟩

/-- C4, at the input `(42)`: the call returns the node the inner `parse_expr`
call returned, and the close parenthesis is consumed without a report. -/
theorem parse_primary_expr_paren_transparent_witness :
    (parse_primary_expr env_primary (Parser.start tokens_paren_42)).1 =
        (env_primary.parse_expr (eat (Parser.start tokens_paren_42)).2).1 ∧
      (parse_primary_expr env_primary (Parser.start tokens_paren_42)).2.index = 3 ∧
      (parse_primary_expr env_primary (Parser.start tokens_paren_42)).2.diagnostics = [] :=
  ⟨parse_primary_expr_paren_transparent.1 SymDouble env_primary
      (Parser.start tokens_paren_42)
      (env_primary.parse_expr (eat (Parser.start tokens_paren_42)).2).2
      (create_ast_node .NODE_NUMERIC_LITERAL
        (.numeric { value := env_primary.ofInt 42, decimal := false }) 1 4 3 5 4)
      (by decide) (by decide) (by decide),
    by decide, by decide⟩

/-! ## Failure paths -/

/-- C5.  A NUMBER or IDENTIFIER token whose lexeme is null or empty: the error
"Invalid number lexeme", respectively "Invalid identifier lexeme", is reported on
the state after the consume, and the result is absent. -/
theorem parse_primary_expr_malformed_literal {F : Type} (env : Env F) (parser : Parser)
    (hkind : (at_ parser).type = .TOKEN_NUMBER ∨ (at_ parser).type = .TOKEN_IDENTIFIER)
    (hlex : (at_ parser).lexeme = none ∨ (at_ parser).lexeme = some "") :
    parse_primary_expr env parser =
      (none, env.error (eat parser).2
        (if (at_ parser).type = .TOKEN_NUMBER then "Invalid number lexeme"
          else "Invalid identifier lexeme")) := by
  rcases hkind with hkind | hkind
  · rw [primary_number_bad env parser hkind hlex, if_pos hkind]
  · rw [primary_identifier_bad env parser hkind hlex, hkind]
    rfl

/-- C5, at a number token with empty text: no node, one diagnostic. -/
theorem parse_primary_expr_malformed_literal_witness :
    (parse_primary_expr env_primary (Parser.start tokens_empty_number)).1 = none ∧
      (parse_primary_expr env_primary (Parser.start tokens_empty_number)).2.diagnostics =
        ["Invalid number lexeme"] := by
  have h := parse_primary_expr_malformed_literal env_primary
    (Parser.start tokens_empty_number) (Or.inl (by decide)) (Or.inr (by decide))
  rw [h]
  exact ⟨rfl, by decide⟩

/-- C6.  With a reporter that records its diagnostic: a token of a kind other
than NUMBER, IDENTIFIER and OPEN_PAREN gives an absent result, after printing the
offending lexeme and reporting "Unexpected token in primary expression"; and an
absent result whose last diagnostic is that message arises for such kinds only. -/
theorem parse_primary_expr_unexpected_token {F : Type} (env : Env F) (parser : Parser)
    (hrec : RecordsDiagnostic env.error) :
    (((at_ parser).type ≠ .TOKEN_NUMBER ∧ (at_ parser).type ≠ .TOKEN_IDENTIFIER ∧
        (at_ parser).type ≠ .TOKEN_OPAREN) →
      parse_primary_expr env parser =
        (none, env.error (printf (eat parser).2 ("Error token: " ++ fmt_s (at_ parser).lexeme))
          "Unexpected token in primary expression")) ∧
    (((at_ parser).type ≠ .TOKEN_NUMBER ∧ (at_ parser).type ≠ .TOKEN_IDENTIFIER ∧
        (at_ parser).type ≠ .TOKEN_OPAREN) ↔
      ((parse_primary_expr env parser).1 = none ∧
        (parse_primary_expr env parser).2.diagnostics.getLast? =
          some "Unexpected token in primary expression")) := by
  have hfwd : ((at_ parser).type ≠ .TOKEN_NUMBER ∧ (at_ parser).type ≠ .TOKEN_IDENTIFIER ∧
        (at_ parser).type ≠ .TOKEN_OPAREN) →
      parse_primary_expr env parser =
        (none, env.error (printf (eat parser).2 ("Error token: " ++ fmt_s (at_ parser).lexeme))
          "Unexpected token in primary expression") :=
    fun h => primary_other env parser h.1 h.2.1 h.2.2
  refine ⟨hfwd, fun h => ?_, fun h => ?_⟩
  · rw [hfwd h]
    exact ⟨rfl, by simp [hrec _ _]⟩
  · obtain ⟨hnone, hlast⟩ := h
    refine ⟨fun hkind => ?_, fun hkind => ?_, fun hkind => ?_⟩
    · rcases hl : (at_ parser).lexeme with _ | lexeme
      · rw [primary_number_bad env parser hkind (Or.inl hl)] at hlast
        simp [hrec _ _] at hlast
      · by_cases he : lexeme = ""
        · rw [primary_number_bad env parser hkind (Or.inr (he ▸ hl))] at hlast
          simp [hrec _ _] at hlast
        · rw [primary_number_ok env parser lexeme hkind hl he] at hnone
          simp at hnone
    · rcases hl : (at_ parser).lexeme with _ | lexeme
      · rw [primary_identifier_bad env parser hkind (Or.inl hl)] at hlast
        simp [hrec _ _] at hlast
      · by_cases he : lexeme = ""
        · rw [primary_identifier_bad env parser hkind (Or.inr (he ▸ hl))] at hlast
          simp [hrec _ _] at hlast
        · rw [primary_identifier_ok env parser lexeme hkind hl he] at hnone
          simp at hnone
    · rcases hx : env.parse_expr (eat parser).2 with ⟨_ | node, inner⟩
      · rw [primary_paren_none env parser inner hkind hx] at hlast
        simp [hrec _ _] at hlast
      · rw [primary_paren_some env parser inner node hkind hx] at hnone
        simp at hnone

/-- C6, at the input `)`: no node, the lexeme printed, the diagnostic recorded. -/
theorem parse_primary_expr_unexpected_token_witness :
    (parse_primary_expr env_primary (Parser.start tokens_cparen)).1 = none ∧
      (parse_primary_expr env_primary (Parser.start tokens_cparen)).2.stdout =
        ["Error token: )"] ∧
      (parse_primary_expr env_primary (Parser.start tokens_cparen)).2.diagnostics =
        ["Unexpected token in primary expression"] := by
  have h := (parse_primary_expr_unexpected_token env_primary (Parser.start tokens_cparen)
    report_error_records).1 ⟨by decide, by decide, by decide⟩
  rw [h]
  exact ⟨rfl, by decide, by decide⟩

/-- C7.  When the current token is OPEN_PAREN and the inner `parse_expr` yields no
node, the error "Failed to parse expression inside parentheses" is reported on the
state `parse_expr` left, and the result is absent; `expect` plays no part, so
nothing is consumed after `parse_expr` returns. -/
theorem parse_primary_expr_nested_failure {F : Type} (env : Env F) (parser inner : Parser)
    (hkind : (at_ parser).type = .TOKEN_OPAREN)
    (hexpr : env.parse_expr (eat parser).2 = (none, inner)) :
    parse_primary_expr env parser =
        (none, env.error inner "Failed to parse expression inside parentheses") ∧
      ∀ expect : Parser → TokenType → String → Token × Parser,
        parse_primary_expr { env with expect := expect } parser =
          (none, env.error inner "Failed to parse expression inside parentheses") :=
  ⟨primary_paren_none env parser inner hkind hexpr,
    fun expect => primary_paren_none { env with expect := expect } parser inner hkind hexpr⟩

/-- C7, at the input `()`: the inner parse fails on the close parenthesis, the
outer call reports the nested failure and returns no node, and the cursor stays
where the inner parse left it. -/
theorem parse_primary_expr_nested_failure_witness :
    (parse_primary_expr env_primary (Parser.start tokens_paren_empty)).1 = none ∧
      (parse_primary_expr env_primary (Parser.start tokens_paren_empty)).2.index =
        (env_primary.parse_expr (eat (Parser.start tokens_paren_empty)).2).2.index ∧
      (parse_primary_expr env_primary (Parser.start tokens_paren_empty)).2.diagnostics =
        ["Unexpected token in primary expression",
          "Failed to parse expression inside parentheses"] := by
  have h := (parse_primary_expr_nested_failure env_primary (Parser.start tokens_paren_empty)
    (env_primary.parse_expr (eat (Parser.start tokens_paren_empty)).2).2
    (by decide) (by decide)).1
  rw [h]
  exact ⟨rfl, by decide, by decide⟩

/-! ## Source spans and the cursor -/

/-- The token under the cursor after the consume is the entry of the token array
one past the old cursor. -/
theorem at_after_eat (parser : Parser) (next : Token)
    (hnext : parser.tokens[parser.index + 1]? = some next) :
    at_ (eat parser).2 = next := by
  simp [at_, eat, List.getD_eq_getElem?_getD, hnext]

/-- A node created on the number or identifier branch carries the span fields of
the token under the cursor after the consume. -/
theorem primary_leaf_span {F : Type} (env : Env F) (parser : Parser) (node : AstNode F)
    (hkind : (at_ parser).type = .TOKEN_NUMBER ∨ (at_ parser).type = .TOKEN_IDENTIFIER)
    (hnode : (parse_primary_expr env parser).1 = some node) :
    node.line = (at_ (eat parser).2).line ∧
      node.column_start = (at_ (eat parser).2).column_start ∧
      node.column_end = (at_ (eat parser).2).column_end ∧
      node.position_start = (at_ (eat parser).2).position_start ∧
      node.position_end = (at_ (eat parser).2).position_end := by
  rcases hl : (at_ parser).lexeme with _ | lexeme
  · rcases hkind with hkind | hkind
    · rw [primary_number_bad env parser hkind (Or.inl hl)] at hnode
      simp at hnode
    · rw [primary_identifier_bad env parser hkind (Or.inl hl)] at hnode
      simp at hnode
  · by_cases he : lexeme = ""
    · rcases hkind with hkind | hkind
      · rw [primary_number_bad env parser hkind (Or.inr (he ▸ hl))] at hnode
        simp at hnode
      · rw [primary_identifier_bad env parser hkind (Or.inr (he ▸ hl))] at hnode
        simp at hnode
    · rcases hkind with hkind | hkind
      · rw [primary_number_ok env parser lexeme hkind hl he] at hnode
        simp only [Option.some.injEq] at hnode
        subst hnode
        exact ⟨rfl, rfl, rfl, rfl, rfl⟩
      · rw [primary_identifier_ok env parser lexeme hkind hl he] at hnode
        simp only [Option.some.injEq] at hnode
        subst hnode
        exact ⟨rfl, rfl, rfl, rfl, rfl⟩

/-- C8.  A node that `parse_primary_expr` creates for a NUMBER or IDENTIFIER token
carries the span of the token that follows the consumed one in the token array,
which is the token under the cursor after the up-front consume: line, column
start and end, position start and end are those of that token. -/
theorem parse_primary_expr_span_of_following_token {F : Type} (env : Env F)
    (parser : Parser) (node : AstNode F) (next : Token)
    (hkind : (at_ parser).type = .TOKEN_NUMBER ∨ (at_ parser).type = .TOKEN_IDENTIFIER)
    (hnode : (parse_primary_expr env parser).1 = some node)
    (hnext : parser.tokens[parser.index + 1]? = some next) :
    at_ (eat parser).2 = next ∧
      node.line = next.line ∧ node.column_start = next.column_start ∧
      node.column_end = next.column_end ∧ node.position_start = next.position_start ∧
      node.position_end = next.position_end := by
  have h := primary_leaf_span env parser node hkind hnode
  rw [at_after_eat parser next hnext] at h
  exact ⟨at_after_eat parser next hnext, h⟩

/-- C8, at the input `42`: the literal stands at columns 1 to 3, the end of input
at column 3, and the node of the literal carries the columns 3 to 3 of the end of
input, which are not the columns of the literal. -/
theorem parse_primary_expr_span_of_following_token_witness :
    ∃ node : AstNode SymDouble,
      (parse_primary_expr env_primary (Parser.start tokens_42)).1 = some node ∧
      (node.line, node.column_start, node.column_end, node.position_start,
        node.position_end) = (1, 3, 3, 2, 2) ∧
      node.column_start ≠ (at_ (Parser.start tokens_42)).column_start := by
  refine ⟨create_ast_node .NODE_NUMERIC_LITERAL
    (.numeric { value := env_primary.ofInt 42, decimal := false }) 1 3 2 3 2, by decide, ?_,
    by decide⟩
  obtain ⟨_, h1, h2, h3, h4, h5⟩ :=
    parse_primary_expr_span_of_following_token env_primary (Parser.start tokens_42)
      (create_ast_node .NODE_NUMERIC_LITERAL
        (.numeric { value := env_primary.ofInt 42, decimal := false }) 1 3 2 3 2)
      (eof_token 3) (Or.inl (by decide)) (by decide) (by decide)
  rw [h1, h2, h3, h4, h5]
  decide

/-- C9.  What the code does where the claim expects the consumed token's span: at
the input `42` the number token spans columns 1 to 3 and positions 0 to 2, and
the node made from it has columns 3 to 3 and positions 2 to 2, the span of the
end-of-input token after it. -/
theorem parse_primary_expr_span_not_of_consumed_token :
    ∃ node : AstNode SymDouble,
      (parse_primary_expr env_primary (Parser.start tokens_42)).1 = some node ∧
      (at_ (Parser.start tokens_42)).type = .TOKEN_NUMBER ∧
      ((at_ (Parser.start tokens_42)).column_start,
        (at_ (Parser.start tokens_42)).column_end,
        (at_ (Parser.start tokens_42)).position_start,
        (at_ (Parser.start tokens_42)).position_end) = (1, 3, 0, 2) ∧
      (node.column_start, node.column_end, node.position_start, node.position_end) =
        (3, 3, 2, 2) ∧
      node.column_start ≠ (at_ (Parser.start tokens_42)).column_start ∧
      node.position_start ≠ (at_ (Parser.start tokens_42)).position_start :=
  ⟨create_ast_node .NODE_NUMERIC_LITERAL
    (.numeric { value := env_primary.ofInt 42, decimal := false }) 1 3 2 3 2,
    by decide, by decide, by decide, by decide, by decide, by decide⟩

/-- C10.  When the current token is not OPEN_PAREN, the call consumes exactly that
one token: there is a state `consumed`, with the cursor one further and the same
token array, such that the final state is `consumed` itself when a node is
returned, and the error reporter applied to `consumed` when none is.  So with a
reporter that leaves cursor and tokens alone, the final cursor is the old cursor
plus one and the tokens are unchanged. -/
theorem parse_primary_expr_consumes_one_token {F : Type} (env : Env F) (parser : Parser)
    (hkind : (at_ parser).type ≠ .TOKEN_OPAREN) :
    (∃ consumed : Parser, consumed.index = parser.index + 1 ∧
      consumed.tokens = parser.tokens ∧
      (((parse_primary_expr env parser).1 ≠ none ∧
          (parse_primary_expr env parser).2 = consumed) ∨
        ((parse_primary_expr env parser).1 = none ∧
          ∃ message, (parse_primary_expr env parser).2 = env.error consumed message))) ∧
    ((∀ p m, (env.error p m).index = p.index ∧ (env.error p m).tokens = p.tokens) →
      (parse_primary_expr env parser).2.index = parser.index + 1 ∧
        (parse_primary_expr env parser).2.tokens = parser.tokens) := by
  have key : ∃ consumed : Parser, consumed.index = parser.index + 1 ∧
      consumed.tokens = parser.tokens ∧
      (((parse_primary_expr env parser).1 ≠ none ∧
          (parse_primary_expr env parser).2 = consumed) ∨
        ((parse_primary_expr env parser).1 = none ∧
          ∃ message, (parse_primary_expr env parser).2 = env.error consumed message)) := by
    by_cases hnum : (at_ parser).type = .TOKEN_NUMBER
    · rcases hl : (at_ parser).lexeme with _ | lexeme
      · rw [primary_number_bad env parser hnum (Or.inl hl)]
        exact ⟨(eat parser).2, rfl, rfl, Or.inr ⟨rfl, _, rfl⟩⟩
      · by_cases he : lexeme = ""
        · rw [primary_number_bad env parser hnum (Or.inr (he ▸ hl))]
          exact ⟨(eat parser).2, rfl, rfl, Or.inr ⟨rfl, _, rfl⟩⟩
        · rw [primary_number_ok env parser lexeme hnum hl he]
          exact ⟨(eat parser).2, rfl, rfl, Or.inl ⟨by simp, rfl⟩⟩
    · by_cases hid : (at_ parser).type = .TOKEN_IDENTIFIER
      · rcases hl : (at_ parser).lexeme with _ | lexeme
        · rw [primary_identifier_bad env parser hid (Or.inl hl)]
          exact ⟨(eat parser).2, rfl, rfl, Or.inr ⟨rfl, _, rfl⟩⟩
        · by_cases he : lexeme = ""
          · rw [primary_identifier_bad env parser hid (Or.inr (he ▸ hl))]
            exact ⟨(eat parser).2, rfl, rfl, Or.inr ⟨rfl, _, rfl⟩⟩
          · rw [primary_identifier_ok env parser lexeme hid hl he]
            exact ⟨(eat parser).2, rfl, rfl, Or.inl ⟨by simp, rfl⟩⟩
      · rw [primary_other env parser hnum hid hkind]
        exact ⟨printf (eat parser).2 ("Error token: " ++ fmt_s (at_ parser).lexeme),
          rfl, rfl, Or.inr ⟨rfl, _, rfl⟩⟩
  refine ⟨key, fun hframe => ?_⟩
  obtain ⟨consumed, hi, ht, h | h⟩ := key
  · rw [h.2]
    exact ⟨hi, ht⟩
  · obtain ⟨_, message, hm⟩ := h
    rw [hm, (hframe consumed message).1, (hframe consumed message).2]
    exact ⟨hi, ht⟩

/-- C10, at the inputs `42` (a node is returned) and `)` (an error is reported):
in both the cursor moves from 0 to 1 and the token array is as before. -/
theorem parse_primary_expr_consumes_one_token_witness :
    ((parse_primary_expr env_primary (Parser.start tokens_42)).2.index = 0 + 1 ∧
      (parse_primary_expr env_primary (Parser.start tokens_42)).2.tokens = tokens_42) ∧
    ((parse_primary_expr env_primary (Parser.start tokens_cparen)).2.index = 0 + 1 ∧
      (parse_primary_expr env_primary (Parser.start tokens_cparen)).2.tokens =
        tokens_cparen) :=
  ⟨(parse_primary_expr_consumes_one_token env_primary (Parser.start tokens_42)
      (by decide)).2 (fun _ _ => ⟨rfl, rfl⟩),
    (parse_primary_expr_consumes_one_token env_primary (Parser.start tokens_cparen)
      (by decide)).2 (fun _ _ => ⟨rfl, rfl⟩)⟩

/-! ## AST printer: the traversal step by step -/

theorem is_visited_iff (visited : VisitedNodes) (ref : NodeRef) :
    is_visited visited ref = true ↔ ref ∈ visited := by
  simp [is_visited]

/-- A null node: nothing happens. -/
theorem print_ast_node_null {F : Type} (R : Renderers F) (heap : Heap F)
    (fuel depth : Nat) (visited : VisitedNodes) :
    print_ast_node R heap (fuel + 1) none depth visited = some (visited, []) := by
  simp [print_ast_node]

/-- A node already in the visited set: nothing happens. -/
theorem print_ast_node_seen {F : Type} (R : Renderers F) (heap : Heap F)
    (fuel depth : Nat) (visited : VisitedNodes) (ref : NodeRef) (h : ref ∈ visited) :
    print_ast_node R heap (fuel + 1) (some ref) depth visited = some (visited, []) := by
  simp [print_ast_node, (is_visited_iff visited ref).2 h]

/-- A dangling reference: nothing happens. -/
theorem print_ast_node_dangling {F : Type} (R : Renderers F) (heap : Heap F)
    (fuel depth : Nat) (visited : VisitedNodes) (ref : NodeRef) (h : heap[ref]? = none) :
    print_ast_node R heap (fuel + 1) (some ref) depth visited = some (visited, []) := by
  simp [print_ast_node, h]

/-- A node not yet visited: it is marked, its `Node Type` line is printed, and its
actions are carried out. -/
theorem print_ast_node_fresh {F : Type} (R : Renderers F) (heap : Heap F)
    (fuel depth : Nat) (visited : VisitedNodes) (ref : NodeRef) (n : AstNode F)
    (hfresh : ref ∉ visited) (hnode : heap[ref]? = some n) :
    print_ast_node R heap (fuel + 1) (some ref) depth visited =
      match run_actions (print_ast_node R heap fuel) (node_actions R ref n depth)
          (visited ++ [ref]) with
      | none => none
      | some (visited, out) =>
        some (visited, Line.node_type depth (returnASTNodeName n.kind) :: out) := by
  have h : is_visited visited ref = false := by
    cases hv : is_visited visited ref
    · rfl
    · exact absurd ((is_visited_iff visited ref).1 hv) hfresh
  simp [print_ast_node, h, hnode, mark_visited]

/-- Actions in sequence. -/
theorem run_actions_append
    (visit : Option NodeRef → Nat → VisitedNodes → Option (VisitedNodes × List Line))
    (first second : List Action) (visited : VisitedNodes) :
    run_actions visit (first ++ second) visited =
      match run_actions visit first visited with
      | none => none
      | some (v1, o1) =>
        match run_actions visit second v1 with
        | none => none
        | some (v2, o2) => some (v2, o1 ++ o2) := by
  induction first generalizing visited with
  | nil =>
    simp only [List.nil_append, run_actions]
    rcases h2 : run_actions visit second visited with _ | ⟨v2, o2⟩ <;> simp [h2]
  | cons a first ih =>
    cases a with
    | line l =>
      have hstep : run_actions visit (Action.line l :: (first ++ second)) visited =
          match run_actions visit (first ++ second) visited with
          | none => none
          | some (v, out) => some (v, l :: out) := rfl
      have hhead : run_actions visit (Action.line l :: first) visited =
          match run_actions visit first visited with
          | none => none
          | some (v, out) => some (v, l :: out) := rfl
      rw [List.cons_append, hstep, hhead, ih]
      rcases run_actions visit first visited with _ | ⟨v1, o1⟩
      · rfl
      · rcases h2 : run_actions visit second v1 with _ | ⟨v2, o2⟩ <;> simp [h2]
    | visit node depth =>
      have hstep : run_actions visit (Action.visit node depth :: (first ++ second)) visited =
          match visit node depth visited with
          | none => none
          | some (v, out) =>
            match run_actions visit (first ++ second) v with
            | none => none
            | some (v1, out_rest) => some (v1, out ++ out_rest) := rfl
      have hhead : run_actions visit (Action.visit node depth :: first) visited =
          match visit node depth visited with
          | none => none
          | some (v, out) =>
            match run_actions visit first v with
            | none => none
            | some (v1, out_rest) => some (v1, out ++ out_rest) := rfl
      rw [List.cons_append, hstep, hhead]
      rcases visit node depth visited with _ | ⟨v0, o0⟩
      · rfl
      · simp only [ih]
        rcases run_actions visit first v0 with _ | ⟨v1, o1⟩
        · rfl
        · rcases h2 : run_actions visit second v1 with _ | ⟨v2, o2⟩ <;> simp [h2]

/-- Induction over a run of actions, given what is known of the traversal used
for the recursive calls. -/
theorem run_actions_induct
    (visit : Option NodeRef → Nat → VisitedNodes → Option (VisitedNodes × List Line))
    (P : Option NodeRef → Nat → VisitedNodes → VisitedNodes → List Line → Prop)
    (Q : List Action → VisitedNodes → VisitedNodes → List Line → Prop)
    (hvisit_ok : ∀ node depth v v1 out, visit node depth v = some (v1, out) → P node depth v v1 out)
    (hnil : ∀ v, Q [] v v [])
    (hline : ∀ l rest v v1 out, Q rest v v1 out → Q (.line l :: rest) v v1 (l :: out))
    (hvisit : ∀ node depth rest v v1 o1 v2 o2, P node depth v v1 o1 → Q rest v1 v2 o2 →
      Q (.visit node depth :: rest) v v2 (o1 ++ o2)) :
    ∀ actions v v1 out, run_actions visit actions v = some (v1, out) → Q actions v v1 out := by
  intro actions
  induction actions with
  | nil =>
    intro v v1 out h
    simp only [run_actions, Option.some.injEq, Prod.mk.injEq] at h
    obtain ⟨rfl, rfl⟩ := h
    exact hnil v
  | cons a rest ih =>
    intro v v1 out h
    cases a with
    | line l =>
      simp only [run_actions] at h
      rcases hr : run_actions visit rest v with _ | ⟨v2, o2⟩
      · simp [hr] at h
      · simp only [hr, Option.some.injEq, Prod.mk.injEq] at h
        obtain ⟨rfl, rfl⟩ := h
        exact hline l rest v v2 o2 (ih v v2 o2 hr)
    | visit node depth =>
      simp only [run_actions] at h
      rcases hv : visit node depth v with _ | ⟨v0, o0⟩
      · simp [hv] at h
      · simp only [hv] at h
        rcases hr : run_actions visit rest v0 with _ | ⟨v2, o2⟩
        · simp [hr] at h
        · simp only [hr, Option.some.injEq, Prod.mk.injEq] at h
          obtain ⟨rfl, rfl⟩ := h
          exact hvisit node depth rest v v0 o0 v2 o2 (hvisit_ok node depth v v0 o0 hv)
            (ih v0 v2 o2 hr)

/-- Induction over the traversal: a property `P` of the calls of `print_ast_node`
and a property `Q` of the runs of actions hold of every call that returns, once
they are shown to be preserved by each step. -/
theorem print_ast_node_induct {F : Type} (R : Renderers F) (heap : Heap F)
    (P : Option NodeRef → Nat → VisitedNodes → VisitedNodes → List Line → Prop)
    (Q : List Action → VisitedNodes → VisitedNodes → List Line → Prop)
    (hskip : ∀ node depth v, P node depth v v [])
    (hnode : ∀ ref n depth v v1 out, ref ∉ v → heap[ref]? = some n →
      Q (node_actions R ref n depth) (v ++ [ref]) v1 out →
      P (some ref) depth v v1 (Line.node_type depth (returnASTNodeName n.kind) :: out))
    (hnil : ∀ v, Q [] v v [])
    (hline : ∀ l rest v v1 out, Q rest v v1 out → Q (.line l :: rest) v v1 (l :: out))
    (hvisit : ∀ node depth rest v v1 o1 v2 o2, P node depth v v1 o1 → Q rest v1 v2 o2 →
      Q (.visit node depth :: rest) v v2 (o1 ++ o2)) :
    ∀ fuel node depth v v1 out,
      print_ast_node R heap fuel node depth v = some (v1, out) → P node depth v v1 out := by
  intro fuel
  induction fuel with
  | zero =>
    intro node depth v v1 out h
    simp [print_ast_node] at h
  | succ fuel ih =>
    intro node depth v v1 out h
    rcases node with _ | ref
    · rw [print_ast_node_null] at h
      simp only [Option.some.injEq, Prod.mk.injEq] at h
      obtain ⟨rfl, rfl⟩ := h
      exact hskip none depth v
    · by_cases hseen : ref ∈ v
      · rw [print_ast_node_seen R heap fuel depth v ref hseen] at h
        simp only [Option.some.injEq, Prod.mk.injEq] at h
        obtain ⟨rfl, rfl⟩ := h
        exact hskip (some ref) depth v
      · rcases hn : heap[ref]? with _ | n
        · rw [print_ast_node_dangling R heap fuel depth v ref hn] at h
          simp only [Option.some.injEq, Prod.mk.injEq] at h
          obtain ⟨rfl, rfl⟩ := h
          exact hskip (some ref) depth v
        · rw [print_ast_node_fresh R heap fuel depth v ref n hseen hn] at h
          rcases hr : run_actions (print_ast_node R heap fuel) (node_actions R ref n depth)
              (v ++ [ref]) with _ | ⟨v2, o2⟩
          · simp [hr] at h
          · simp only [hr, Option.some.injEq, Prod.mk.injEq] at h
            obtain ⟨rfl, rfl⟩ := h
            exact hnode ref n depth v v2 o2 hseen hn
              (run_actions_induct (print_ast_node R heap fuel) P Q ih hnil hline hvisit
                _ _ _ _ hr)

/-! ## AST printer: invariants of the traversal -/

theorem children_loop_plain (depth : Nat) (children : List (Option NodeRef)) :
    ∀ (i : Nat) (l : Line), Action.line l ∈ children_loop depth i children → l.plain = true := by
  induction children with
  | nil => intro i l h; simp [children_loop] at h
  | cons c rest ih =>
    intro i l h
    cases c with
    | none =>
      simp only [children_loop, List.mem_cons, Action.line.injEq] at h
      rcases h with rfl | h
      · rfl
      · exact ih (i + 1) l h
    | some child =>
      simp only [children_loop, List.mem_cons] at h
      rcases h with h | h
      · cases h
      · exact ih (i + 1) l h

theorem render_steps_plain (steps : List RenderStep) (l : Line)
    (h : Action.line l ∈ render_steps steps) : l.plain = true := by
  simp only [render_steps, List.mem_map] at h
  obtain ⟨step, _, hs⟩ := h
  cases step with
  | text line => simp only [Action.line.injEq] at hs; subst hs; rfl
  | visit node depth => cases hs

theorem render_lines_plain (lines : List String) (l : Line)
    (h : Action.line l ∈ render_lines lines) : l.plain = true := by
  simp only [render_lines, List.mem_map] at h
  obtain ⟨line, _, hs⟩ := h
  simp only [Action.line.injEq] at hs
  subst hs
  rfl

theorem node_switch_plain {F : Type} (R : Renderers F) (ref : NodeRef) (n : AstNode F)
    (depth : Nat) (l : Line) (h : Action.line l ∈ node_switch R ref n depth) :
    l.plain = true := by
  unfold node_switch at h
  split at h
  all_goals first
    | exact render_steps_plain _ l h
    | exact render_lines_plain _ l h
    | (simp only [List.mem_singleton, Action.line.injEq] at h; subst h; rfl)

theorem node_actions_plain {F : Type} (R : Renderers F) (ref : NodeRef) (n : AstNode F)
    (depth : Nat) (l : Line) (h : Action.line l ∈ node_actions R ref n depth) :
    l.plain = true := by
  simp only [node_actions, List.mem_append] at h
  rcases h with h | h
  · exact node_switch_plain R ref n depth l h
  · exact children_loop_plain depth n.children 0 l h

theorem rendered_names_plain (l : Line) (out : List Line) (h : l.plain = true) :
    rendered_names (l :: out) = rendered_names out := by
  cases l <;> simp_all [rendered_names, Line.plain]

theorem rendered_names_append (o1 o2 : List Line) :
    rendered_names (o1 ++ o2) = rendered_names o1 ++ rendered_names o2 := by
  simp [rendered_names]

theorem node_name_of_node {F : Type} (heap : Heap F) (ref : NodeRef) (n : AstNode F)
    (h : heap[ref]? = some n) : node_name heap ref = returnASTNodeName n.kind := by
  simp [node_name, h]

theorem ref_lt_of_node {F : Type} (heap : Heap F) (ref : NodeRef) (n : AstNode F)
    (h : heap[ref]? = some n) : ref < heap.length := by
  by_contra hlt
  rw [List.getElem?_eq_none (Nat.le_of_not_lt hlt)] at h
  cases h

/-- Every returned call of `print_ast_node` satisfies `Traversed`. -/
theorem print_ast_node_traversed {F : Type} (R : Renderers F) (heap : Heap F)
    (fuel : Nat) (node : Option NodeRef) (depth : Nat) (v v1 : VisitedNodes) (out : List Line)
    (h : print_ast_node R heap fuel node depth v = some (v1, out)) :
    Traversed heap v v1 out := by
  refine print_ast_node_induct R heap (fun _ _ v v1 out => Traversed heap v v1 out)
    (fun actions v v1 out =>
      (∀ l, Action.line l ∈ actions → l.plain = true) → Traversed heap v v1 out)
    ?_ ?_ ?_ ?_ ?_ fuel node depth v v1 out h
  · intro _ _ v
    exact ⟨[], by simp, by simp, List.nodup_nil, by simp, by simp [rendered_names], by simp⟩
  · intro ref n depth v v1 out hfresh hn hq
    obtain ⟨added, hv1, hnew, hnodup, hvalid, hnames, hbanner⟩ :=
      hq (node_actions_plain R ref n depth)
    refine ⟨ref :: added, by simp [hv1], ?_, ?_, ?_, ?_, ?_⟩
    · intro r hr
      rcases List.mem_cons.1 hr with rfl | hr
      · exact hfresh
      · exact fun hv => hnew r hr (List.mem_append_left _ hv)
    · refine List.nodup_cons.2 ⟨fun hin => hnew ref hin (by simp), hnodup⟩
    · intro r hr
      rcases List.mem_cons.1 hr with rfl | hr
      · exact ref_lt_of_node heap r n hn
      · exact hvalid r hr
    · simp [rendered_names, node_name_of_node heap ref n hn] at hnames ⊢
      exact hnames
    · simp [hbanner]
  · intro v _
    exact ⟨[], by simp, by simp, List.nodup_nil, by simp, by simp [rendered_names], by simp⟩
  · intro l rest v v1 out hq hplain
    obtain ⟨added, hv1, hnew, hnodup, hvalid, hnames, hbanner⟩ :=
      hq (fun l' hl' => hplain l' (List.mem_cons_of_mem _ hl'))
    have hl : l.plain = true := hplain l (List.mem_cons_self _ _)
    refine ⟨added, hv1, hnew, hnodup, hvalid, ?_, ?_⟩
    · rw [rendered_names_plain l out hl]
      exact hnames
    · intro hmem
      rcases List.mem_cons.1 hmem with hb | hb
      · rw [← hb] at hl
        cases hl
      · exact hbanner hb
  · intro node depth rest v v1 o1 v2 o2 hp hq hplain
    obtain ⟨a1, hv1, hnew1, hnodup1, hvalid1, hnames1, hbanner1⟩ := hp
    obtain ⟨a2, hv2, hnew2, hnodup2, hvalid2, hnames2, hbanner2⟩ :=
      hq (fun l' hl' => hplain l' (List.mem_cons_of_mem _ hl'))
    refine ⟨a1 ++ a2, by simp [hv2, hv1], ?_, ?_, ?_, ?_, ?_⟩
    · intro r hr hv
      rcases List.mem_append.1 hr with hr | hr
      · exact hnew1 r hr hv
      · exact hnew2 r hr (hv1 ▸ List.mem_append_left _ hv)
    · refine List.nodup_append.2 ⟨hnodup1, hnodup2, ?_⟩
      intro r hr1 hr2
      exact hnew2 r hr2 (hv1 ▸ List.mem_append_right _ hr1)
    · intro r hr
      rcases List.mem_append.1 hr with hr | hr
      · exact hvalid1 r hr
      · exact hvalid2 r hr
    · rw [rendered_names_append, hnames1, hnames2, List.map_append]
    · intro hmem
      rcases List.mem_append.1 hmem with hb | hb
      · exact hbanner1 hb
      · exact hbanner2 hb

/-- The same for a run of the actions of a node. -/
theorem run_actions_traversed {F : Type} (R : Renderers F) (heap : Heap F)
    (fuel : Nat) (actions : List Action) (v v1 : VisitedNodes) (out : List Line)
    (hplain : ∀ l, Action.line l ∈ actions → l.plain = true)
    (h : run_actions (print_ast_node R heap fuel) actions v = some (v1, out)) :
    Traversed heap v v1 out := by
  induction actions generalizing v v1 out with
  | nil =>
    simp only [run_actions, Option.some.injEq, Prod.mk.injEq] at h
    obtain ⟨rfl, rfl⟩ := h
    exact ⟨[], by simp, by simp, List.nodup_nil, by simp, by simp [rendered_names], by simp⟩
  | cons a rest ih =>
    have hsplit := run_actions_append (print_ast_node R heap fuel) [a] rest v
    rw [List.singleton_append, h] at hsplit
    cases a with
    | line l =>
      have hl : l.plain = true := hplain l (List.mem_cons_self _ _)
      simp only [run_actions] at hsplit
      rcases hr : run_actions (print_ast_node R heap fuel) rest v with _ | ⟨v2, o2⟩
      · simp [hr] at hsplit
      · simp only [hr, Option.some.injEq, Prod.mk.injEq] at hsplit
        obtain ⟨rfl, rfl⟩ := hsplit
        obtain ⟨added, hv1, hnew, hnodup, hvalid, hnames, hbanner⟩ :=
          ih v v1 o2 (fun l' hl' => hplain l' (List.mem_cons_of_mem _ hl')) hr
        refine ⟨added, hv1, hnew, hnodup, hvalid, ?_, ?_⟩
        · simpa [rendered_names_plain l o2 hl] using hnames
        · intro hmem
          simp only [List.singleton_append, List.mem_cons] at hmem
          rcases hmem with hb | hb
          · rw [← hb] at hl
            cases hl
          · exact hbanner hb
    | visit node depth =>
      simp only [run_actions] at hsplit
      rcases hc : print_ast_node R heap fuel node depth v with _ | ⟨v0, o0⟩
      · simp [hc] at hsplit
      · simp only [hc, List.append_nil] at hsplit
        rcases hr : run_actions (print_ast_node R heap fuel) rest v0 with _ | ⟨v2, o2⟩
        · simp [hr] at hsplit
        · simp only [hr, Option.some.injEq, Prod.mk.injEq] at hsplit
          obtain ⟨rfl, rfl⟩ := hsplit
          obtain ⟨a1, hv1, hnew1, hnodup1, hvalid1, hnames1, hbanner1⟩ :=
            print_ast_node_traversed R heap fuel node depth v v0 o0 hc
          obtain ⟨a2, hv2, hnew2, hnodup2, hvalid2, hnames2, hbanner2⟩ :=
            ih v0 v1 o2 (fun l' hl' => hplain l' (List.mem_cons_of_mem _ hl')) hr
          refine ⟨a1 ++ a2, by simp [hv2, hv1], ?_, ?_, ?_, ?_, ?_⟩
          · intro r hr hv
            rcases List.mem_append.1 hr with hr | hr
            · exact hnew1 r hr hv
            · exact hnew2 r hr (hv1 ▸ List.mem_append_left _ hv)
          · refine List.nodup_append.2 ⟨hnodup1, hnodup2, ?_⟩
            intro r hr1 hr2
            exact hnew2 r hr2 (hv1 ▸ List.mem_append_right _ hr1)
          · intro r hr
            rcases List.mem_append.1 hr with hr | hr
            · exact hvalid1 r hr
            · exact hvalid2 r hr
          · rw [rendered_names_append, hnames1, hnames2, List.map_append]
          · intro hmem
            rcases List.mem_append.1 hmem with hb | hb
            · exact hbanner1 hb
            · exact hbanner2 hb

/-! ## AST printer: termination -/

theorem unvisited_le_length {F : Type} (heap : Heap F) (visited : VisitedNodes) :
    unvisited heap visited ≤ heap.length := by
  unfold unvisited
  calc ((Finset.range heap.length).filter fun ref => ref ∉ visited).card
      ≤ (Finset.range heap.length).card := Finset.card_filter_le _ _
    _ = heap.length := Finset.card_range _

/-- Marking more nodes never raises the number of unvisited nodes. -/
theorem unvisited_append_le {F : Type} (heap : Heap F) (visited added : VisitedNodes) :
    unvisited heap (visited ++ added) ≤ unvisited heap visited := by
  unfold unvisited
  apply Finset.card_le_card
  intro r hr
  simp only [Finset.mem_filter, List.mem_append, not_or] at hr ⊢
  exact ⟨hr.1, hr.2.1⟩

/-- Marking a node of the heap that was not marked lowers the number of unvisited
nodes. -/
theorem unvisited_mark_lt {F : Type} (heap : Heap F) (visited : VisitedNodes) (ref : NodeRef)
    (hvalid : ref < heap.length) (hfresh : ref ∉ visited) :
    unvisited heap (mark_visited visited ref) < unvisited heap visited := by
  unfold unvisited mark_visited
  apply Finset.card_lt_card
  rw [Finset.ssubset_iff_of_subset]
  · refine ⟨ref, ?_, ?_⟩
    · simp [hvalid, hfresh]
    · simp
  · intro r hr
    simp only [Finset.mem_filter, List.mem_append, not_or] at hr ⊢
    exact ⟨hr.1, hr.2.1⟩

/-- A run of actions returns when each recursive call returns. -/
theorem run_actions_returns {F : Type} (R : Renderers F) (heap : Heap F) (fuel : Nat)
    (hcall : ∀ node depth v, unvisited heap v < fuel →
      ∃ res, print_ast_node R heap fuel node depth v = some res)
    (actions : List Action) (v : VisitedNodes) (hv : unvisited heap v < fuel) :
    ∃ res, run_actions (print_ast_node R heap fuel) actions v = some res := by
  induction actions generalizing v with
  | nil => exact ⟨_, rfl⟩
  | cons a rest ih =>
    cases a with
    | line l =>
      obtain ⟨⟨v1, o1⟩, hr⟩ := ih v hv
      exact ⟨(v1, l :: o1), by simp [run_actions, hr]⟩
    | visit node depth =>
      obtain ⟨⟨v0, o0⟩, hc⟩ := hcall node depth v hv
      obtain ⟨added, hv0, _⟩ := print_ast_node_traversed R heap fuel node depth v v0 o0 hc
      have hv0' : unvisited heap v0 < fuel := by
        rw [hv0]
        exact lt_of_le_of_lt (unvisited_append_le heap v added) hv
      obtain ⟨⟨v1, o1⟩, hr⟩ := ih v0 hv0'
      exact ⟨(v1, o0 ++ o1), by simp [run_actions, hc, hr]⟩

/-- `print_ast_node` returns whenever the bound on the recursion exceeds the
number of nodes not yet visited. -/
theorem print_ast_node_returns {F : Type} (R : Renderers F) (heap : Heap F) :
    ∀ (fuel : Nat) (node : Option NodeRef) (depth : Nat) (v : VisitedNodes),
      unvisited heap v < fuel → ∃ res, print_ast_node R heap fuel node depth v = some res := by
  intro fuel
  induction fuel with
  | zero => intro _ _ v hv; exact absurd hv (Nat.not_lt_zero _)
  | succ fuel ih =>
    intro node depth v hv
    rcases node with _ | ref
    · exact ⟨_, print_ast_node_null R heap fuel depth v⟩
    · by_cases hseen : ref ∈ v
      · exact ⟨_, print_ast_node_seen R heap fuel depth v ref hseen⟩
      · rcases hn : heap[ref]? with _ | n
        · exact ⟨_, print_ast_node_dangling R heap fuel depth v ref hn⟩
        · have hlt : unvisited heap (v ++ [ref]) < fuel :=
            lt_of_lt_of_le (unvisited_mark_lt heap v ref (ref_lt_of_node heap ref n hn) hseen)
              (Nat.le_of_lt_succ hv)
          obtain ⟨⟨v1, o1⟩, hr⟩ :=
            run_actions_returns R heap fuel ih (node_actions R ref n depth) (v ++ [ref]) hlt
          exact ⟨_, by rw [print_ast_node_fresh R heap fuel depth v ref n hseen hn, hr]⟩

/-- `print_ast` returns. -/
theorem print_ast_returns {F : Type} (R : Renderers F) (heap : Heap F)
    (root : Option NodeRef) (storage : VisitedNodes) :
    ∃ v out, print_ast_node R heap (heap.length + 1) root 0 [] = some (v, out) ∧
      print_ast R heap root storage = some (Line.banner :: out, []) := by
  obtain ⟨⟨v, out⟩, h⟩ := print_ast_node_returns R heap (heap.length + 1) root 0 []
    (Nat.lt_succ_of_le (unvisited_le_length heap []))
  exact ⟨v, out, h, by simp [print_ast, init_visited, free_visited, h]⟩

/-! ## AST printer: reachability -/

theorem Reach.head {F : Type} {R : Renderers F} {heap : Heap F} {a b c : NodeRef}
    (hedge : Edge R heap a b) (h : Reach R heap b c) : Reach R heap a c := by
  induction h with
  | refl => exact Reach.step a a b (Reach.refl a) hedge
  | step mid child _ hstep ih => exact Reach.step a mid child ih hstep

/-- Every node marked by a returned call of `print_ast_node` was marked before or
is reachable from the node the call was made on. -/
theorem print_ast_node_reach {F : Type} (R : Renderers F) (heap : Heap F)
    (fuel : Nat) (node : Option NodeRef) (depth : Nat) (v v1 : VisitedNodes) (out : List Line)
    (h : print_ast_node R heap fuel node depth v = some (v1, out)) :
    ∀ r ∈ v1, r ∈ v ∨ ∃ s, node = some s ∧ Reach R heap s r := by
  refine print_ast_node_induct R heap
    (fun node _ v v1 _ => ∀ r ∈ v1, r ∈ v ∨ ∃ s, node = some s ∧ Reach R heap s r)
    (fun actions v v1 _ => ∀ r ∈ v1, r ∈ v ∨
      ∃ s d, Action.visit (some s) d ∈ actions ∧ Reach R heap s r)
    ?_ ?_ ?_ ?_ ?_ fuel node depth v v1 out h
  · intro _ _ v r hr
    exact Or.inl hr
  · intro ref n depth v v1 out _ hn hq r hr
    rcases hq r hr with hin | ⟨s, d, hs, hreach⟩
    · rcases List.mem_append.1 hin with hin | hin
      · exact Or.inl hin
      · rw [List.mem_singleton] at hin
        subst hin
        exact Or.inr ⟨r, rfl, Reach.refl r⟩
    · exact Or.inr ⟨ref, rfl, Reach.head ⟨n, depth, d, hn, hs⟩ hreach⟩
  · intro v r hr
    exact Or.inl hr
  · intro l rest v v1 out hq r hr
    rcases hq r hr with hin | ⟨s, d, hs, hreach⟩
    · exact Or.inl hin
    · exact Or.inr ⟨s, d, List.mem_cons_of_mem _ hs, hreach⟩
  · intro node depth rest v v1 o1 v2 o2 hp hq r hr
    rcases hq r hr with hin | ⟨s, d, hs, hreach⟩
    · rcases hp r hin with hin | ⟨s, hs, hreach⟩
      · exact Or.inl hin
      · exact Or.inr ⟨s, depth, by simp [hs], hreach⟩
    · exact Or.inr ⟨s, d, List.mem_cons_of_mem _ hs, hreach⟩

/-- A run of actions with a traversal that returns wherever another one does, and
returns the same, returns the same. -/
theorem run_actions_mono
    (visit visit2 : Option NodeRef → Nat → VisitedNodes → Option (VisitedNodes × List Line))
    (hvisit : ∀ node depth v res, visit node depth v = some res → visit2 node depth v = some res)
    (actions : List Action) :
    ∀ v res, run_actions visit actions v = some res → run_actions visit2 actions v = some res := by
  induction actions with
  | nil => intro v res h; exact h
  | cons a rest ih =>
    intro v res h
    cases a with
    | line l =>
      simp only [run_actions] at h ⊢
      rcases hr : run_actions visit rest v with _ | ⟨v1, o1⟩
      · simp [hr] at h
      · rw [hr] at h
        rw [ih v (v1, o1) hr]
        exact h
    | visit node depth =>
      simp only [run_actions] at h ⊢
      rcases hc : visit node depth v with _ | ⟨v0, o0⟩
      · simp [hc] at h
      · rw [hc] at h
        rw [hvisit node depth v (v0, o0) hc]
        rcases hr : run_actions visit rest v0 with _ | ⟨v1, o1⟩
        · simp [hr] at h
        · simp only [hr] at h
          simp only [ih v0 (v1, o1) hr]
          exact h

/-- A larger bound on the recursion changes nothing in a call that returned. -/
theorem print_ast_node_fuel_succ {F : Type} (R : Renderers F) (heap : Heap F) :
    ∀ (fuel : Nat) (node : Option NodeRef) (depth : Nat) (v : VisitedNodes)
      (res : VisitedNodes × List Line),
      print_ast_node R heap fuel node depth v = some res →
      print_ast_node R heap (fuel + 1) node depth v = some res := by
  intro fuel
  induction fuel with
  | zero => intro node depth v res h; simp [print_ast_node] at h
  | succ fuel ih =>
    intro node depth v res h
    rcases node with _ | ref
    · rw [print_ast_node_null] at h ⊢
      exact h
    · by_cases hseen : ref ∈ v
      · rw [print_ast_node_seen R heap _ depth v ref hseen] at h ⊢
        exact h
      · rcases hn : heap[ref]? with _ | n
        · rw [print_ast_node_dangling R heap _ depth v ref hn] at h ⊢
          exact h
        · rw [print_ast_node_fresh R heap _ depth v ref n hseen hn] at h ⊢
          rcases hr : run_actions (print_ast_node R heap fuel) (node_actions R ref n depth)
              (v ++ [ref]) with _ | ⟨v1, o1⟩
          · simp [hr] at h
          · rw [hr] at h
            rw [run_actions_mono _ _ ih _ _ _ hr]
            exact h

theorem print_ast_node_fuel_le {F : Type} (R : Renderers F) (heap : Heap F)
    (fuel fuel2 : Nat) (hle : fuel ≤ fuel2) (node : Option NodeRef) (depth : Nat)
    (v : VisitedNodes) (res : VisitedNodes × List Line)
    (h : print_ast_node R heap fuel node depth v = some res) :
    print_ast_node R heap fuel2 node depth v = some res := by
  induction hle with
  | refl => exact h
  | step _ ih => exact print_ast_node_fuel_succ R heap _ node depth v res ih

/-! ## AST printer: at most once, and termination -/

/-- C11.  Whatever the graph (shared children, a node listed twice, a node among
its own descendants) and the root: the traversal that `print_ast` starts on the
emptied visited set returns, with the list `marked` of the nodes it has marked
and the lines `out`, which `print_ast` prints after the banner.  No identity
occurs twice in `marked`, each is a node of the heap reachable from the root, and
the `Node Type` lines of the output are those of `marked`, one for one and in the
order of marking: at most one `Node Type` line per node.  The same holds of
every call of `print_ast_node` that returns, for the nodes it adds to the
visited set.  A call on a node not yet visited marks that node, prints its
`Node Type` line, and leaves the rest to the node's actions, run on the set that
holds the node.  And `print_ast_node` on a null node, or on a node already in the
visited set, prints nothing and leaves the visited set as it is. -/
theorem print_ast_renders_each_node_at_most_once {F : Type} (R : Renderers F)
    (heap : Heap F) (root : Option NodeRef) (storage : VisitedNodes) :
    (∃ marked out,
      print_ast_node R heap (heap.length + 1) root 0 (init_visited storage) =
        some (marked, out) ∧
      print_ast R heap root storage = some (Line.banner :: out, free_visited marked) ∧
      List.Nodup marked ∧ (∀ r ∈ marked, r < heap.length) ∧
      (∀ r ∈ marked, ∃ s, root = some s ∧ Reach R heap s r) ∧
      (rendered_names (Line.banner :: out)).length = marked.length ∧
      rendered_names (Line.banner :: out) = marked.map (node_name heap)) ∧
    (∀ fuel node depth visited after out,
      print_ast_node R heap fuel node depth visited = some (after, out) →
      ∃ added : List NodeRef, after = visited ++ added ∧ (∀ r ∈ added, r ∉ visited) ∧
        List.Nodup added ∧ (rendered_names out).length = added.length ∧
        rendered_names out = added.map (node_name heap)) ∧
    (∀ fuel ref n depth visited, ref ∉ visited → heap[ref]? = some n →
      print_ast_node R heap (fuel + 1) (some ref) depth visited =
        match run_actions (print_ast_node R heap fuel) (node_actions R ref n depth)
            (mark_visited visited ref) with
        | none => none
        | some (after, out) =>
          some (after, Line.node_type depth (returnASTNodeName n.kind) :: out)) ∧
    (∀ fuel depth visited,
      print_ast_node R heap (fuel + 1) none depth visited = some (visited, [])) ∧
    (∀ fuel depth visited ref, ref ∈ visited →
      print_ast_node R heap (fuel + 1) (some ref) depth visited = some (visited, [])) := by
  refine ⟨?_, ?_,
    fun fuel ref n depth visited hfresh hnode =>
      print_ast_node_fresh R heap fuel depth visited ref n hfresh hnode,
    fun fuel depth visited => print_ast_node_null R heap fuel depth visited,
    fun fuel depth visited ref h => print_ast_node_seen R heap fuel depth visited ref h⟩
  · obtain ⟨v, out, hrun, hprint⟩ := print_ast_returns R heap root storage
    obtain ⟨added, hv, _, hnodup, hvalid, hnames, _⟩ :=
      print_ast_node_traversed R heap _ root 0 [] v out hrun
    have hadded : added = v := by simpa using hv.symm
    subst hadded
    have hnames' : rendered_names (Line.banner :: out) = added.map (node_name heap) := by
      simpa [rendered_names] using hnames
    refine ⟨added, out, hrun, hprint, hnodup, hvalid, ?_, ?_, hnames'⟩
    · intro r hr
      rcases print_ast_node_reach R heap _ root 0 [] added out hrun r hr with hin | h
      · cases hin
      · exact h
    · rw [hnames', List.length_map]
  · intro fuel node depth visited after out h
    obtain ⟨added, hv, hnew, hnodup, _, hnames, _⟩ :=
      print_ast_node_traversed R heap fuel node depth visited after out h
    exact ⟨added, hv, hnew, hnodup, by rw [hnames, List.length_map], hnames⟩

/-- C11, on a graph in which node 0 lists node 1 twice and node 1 lists node 0,
its own ancestor: the traversal marks the nodes 0, 1 and 2, each once, and prints
three `Node Type` lines, one for each. -/
theorem print_ast_renders_each_node_at_most_once_witness :
    (print_ast_node renderers_sample heap_cyclic 4 (some 0) 0 []).map (fun r => r.1) =
        some [0, 1, 2] ∧
      (print_ast renderers_sample heap_cyclic (some 0) []).map (fun r => rendered_names r.1) =
        some ["Program", "Identifier", "Numeric Literal"] ∧
      ∃ marked out,
        print_ast_node renderers_sample heap_cyclic (heap_cyclic.length + 1) (some 0) 0
          (init_visited []) = some (marked, out) ∧
        print_ast renderers_sample heap_cyclic (some 0) [] =
          some (Line.banner :: out, free_visited marked) ∧
        List.Nodup marked ∧ (∀ r ∈ marked, r < heap_cyclic.length) ∧
        (∀ r ∈ marked, ∃ s, some 0 = some s ∧ Reach renderers_sample heap_cyclic s r) ∧
        (rendered_names (Line.banner :: out)).length = marked.length ∧
        rendered_names (Line.banner :: out) = marked.map (node_name heap_cyclic) :=
  ⟨by decide, by decide, (print_ast_renders_each_node_at_most_once renderers_sample
    heap_cyclic (some 0) []).1⟩

/-- C12.  `print_ast_node` returns on every graph of the heap, cyclic or not, as
soon as the bound on its recursion exceeds the number of nodes not yet visited, a
number that drops whenever a node is marked, and a larger bound does not change
what it returns; so `print_ast`, whose bound is the size of the heap plus one,
always returns.  The nodes it renders are reachable from the root: their number
is at most the size of any finite set that holds the identities reachable from
the root. -/
theorem print_ast_terminates {F : Type} (R : Renderers F) (heap : Heap F) :
    (∀ fuel node depth visited, unvisited heap visited < fuel →
      ∃ res, print_ast_node R heap fuel node depth visited = some res) ∧
    (∀ fuel fuel2 node depth visited res, fuel ≤ fuel2 →
      print_ast_node R heap fuel node depth visited = some res →
      print_ast_node R heap fuel2 node depth visited = some res) ∧
    (∀ visited ref, ref < heap.length → ref ∉ visited →
      unvisited heap (mark_visited visited ref) < unvisited heap visited) ∧
    (∀ root storage, ∃ out left, print_ast R heap root storage = some (out, left) ∧
      ∀ reachable : Finset NodeRef,
        (∀ s r, root = some s → Reach R heap s r → r ∈ reachable) →
        (rendered_names out).length ≤ reachable.card) := by
  refine ⟨print_ast_node_returns R heap,
    fun fuel fuel2 node depth visited res hle h =>
      print_ast_node_fuel_le R heap fuel fuel2 hle node depth visited res h,
    fun visited ref hvalid hfresh => unvisited_mark_lt heap visited ref hvalid hfresh,
    fun root storage => ?_⟩
  obtain ⟨v, out, hrun, hprint⟩ := print_ast_returns R heap root storage
  obtain ⟨added, hv, _, hnodup, _, hnames, _⟩ :=
    print_ast_node_traversed R heap _ root 0 [] v out hrun
  refine ⟨_, _, hprint, fun reachable hreach => ?_⟩
  have hsub : added.toFinset ⊆ reachable := by
    intro r hr
    rw [List.mem_toFinset] at hr
    have hrv : r ∈ v := by rw [hv]; simpa using hr
    rcases print_ast_node_reach R heap _ root 0 [] v out hrun r hrv with hin | ⟨s, hs, hsr⟩
    · cases hin
    · exact hreach s r hs hsr
  have hlen : (rendered_names (Line.banner :: out)).length = added.length := by
    have : rendered_names (Line.banner :: out) = rendered_names out := by
      simp [rendered_names]
    rw [this, hnames, List.length_map]
  rw [hlen, ← List.toFinset_card_of_nodup hnodup]
  exact Finset.card_le_card hsub

/-- C12, on the cyclic graph: the traversal returns with the bound 4 = 3 + 1, and
renders 3 nodes. -/
theorem print_ast_terminates_witness :
    (∃ res, print_ast_node renderers_sample heap_cyclic 4 (some 0) 0 [] = some res) ∧
      (print_ast renderers_sample heap_cyclic (some 0) []).map
        (fun r => (rendered_names r.1).length) = some 3 :=
  ⟨(print_ast_terminates renderers_sample heap_cyclic).1 4 (some 0) 0 [] (by decide),
    by decide⟩

/-! ## AST printer: null children, the banner, repeated calls -/

/-- The loop over the children, split at an entry. -/
theorem children_loop_append (depth : Nat) (before : List (Option NodeRef)) :
    ∀ (i : Nat) (after : List (Option NodeRef)),
      children_loop depth i (before ++ after) =
        children_loop depth i before ++ children_loop depth (i + before.length) after := by
  induction before with
  | nil => intro i after; simp [children_loop]
  | cons c rest ih =>
    intro i after
    have e : i + 1 + rest.length = i + (rest.length + 1) := by omega
    cases c with
    | none =>
      have hstep : children_loop depth i (none :: (rest ++ after)) =
          Action.line (Line.child_null i) :: children_loop depth (i + 1) (rest ++ after) := rfl
      rw [List.cons_append, hstep, ih (i + 1) after, e]
      rfl
    | some child =>
      have hstep : children_loop depth i (some child :: (rest ++ after)) =
          Action.visit (some child) (depth + 1) ::
            children_loop depth (i + 1) (rest ++ after) := rfl
      rw [List.cons_append, hstep, ih (i + 1) after, e]
      rfl

/-- C13.  On a node whose child sequence has a null entry at index `i` (after the
entries `before`, before the entries `after`): `print_ast_node` carries out the
renderer and the children before `i`, prints the line `Child i is NULL`, and goes
on with the children after `i`; in particular each later child that is non-null,
not yet visited and a node of the heap is traversed, in its turn, at `depth + 1`,
its `Node Type` line coming first. -/
theorem print_ast_node_null_child {F : Type} (R : Renderers F) (heap : Heap F)
    (fuel : Nat) (ref : NodeRef) (n : AstNode F) (depth : Nat) (visited : VisitedNodes)
    (before after : List (Option NodeRef)) (tab : String)
    (hfresh : ref ∉ visited) (hnode : heap[ref]? = some n)
    (hchildren : n.children = before ++ none :: after)
    (hfuel : unvisited heap visited < fuel + 1) :
    ∃ v1 o1 v2 o2,
      run_actions (print_ast_node R heap fuel)
        (node_switch R ref n depth ++ children_loop depth 0 before)
        (mark_visited visited ref) = some (v1, o1) ∧
      run_actions (print_ast_node R heap fuel)
        (children_loop depth (before.length + 1) after) v1 = some (v2, o2) ∧
      print_ast_node R heap (fuel + 1) (some ref) depth visited =
        some (v2, Line.node_type depth (returnASTNodeName n.kind) ::
          (o1 ++ Line.child_null before.length :: o2)) ∧
      Line.text tab (Line.child_null before.length) =
        "Child " ++ toString before.length ++ " is NULL" ∧
      ∀ (mid rest : List (Option NodeRef)) (child : NodeRef),
        after = mid ++ some child :: rest →
        ∃ vm om vc oc vr or,
          run_actions (print_ast_node R heap fuel)
            (children_loop depth (before.length + 1) mid) v1 = some (vm, om) ∧
          print_ast_node R heap fuel (some child) (depth + 1) vm = some (vc, oc) ∧
          run_actions (print_ast_node R heap fuel)
            (children_loop depth (before.length + 1 + mid.length + 1) rest) vc =
              some (vr, or) ∧
          o2 = om ++ (oc ++ or) ∧
          ∀ cn, child ∉ vm → heap[child]? = some cn →
            ∃ below, oc = Line.node_type (depth + 1) (returnASTNodeName cn.kind) :: below := by
  have hlt : unvisited heap (mark_visited visited ref) < fuel :=
    lt_of_lt_of_le (unvisited_mark_lt heap visited ref (ref_lt_of_node heap ref n hnode) hfresh)
      (Nat.le_of_lt_succ hfuel)
  have hret := print_ast_node_returns R heap fuel
  -- the actions before the null entry
  obtain ⟨⟨v1, o1⟩, h1⟩ := run_actions_returns R heap fuel hret
    (node_switch R ref n depth ++ children_loop depth 0 before) (mark_visited visited ref) hlt
  have hplain1 : ∀ l, Action.line l ∈ node_switch R ref n depth ++ children_loop depth 0 before →
      l.plain = true := by
    intro l hl
    rcases List.mem_append.1 hl with hl | hl
    · exact node_switch_plain R ref n depth l hl
    · exact children_loop_plain depth before 0 l hl
  obtain ⟨a1, hv1, _⟩ := run_actions_traversed R heap fuel _ _ v1 o1 hplain1 h1
  have hlt1 : unvisited heap v1 < fuel := by
    rw [hv1]
    exact lt_of_le_of_lt (unvisited_append_le heap _ a1) hlt
  -- the actions after the null entry
  obtain ⟨⟨v2, o2⟩, h2⟩ := run_actions_returns R heap fuel hret
    (children_loop depth (before.length + 1) after) v1 hlt1
  refine ⟨v1, o1, v2, o2, h1, h2, ?_, rfl, ?_⟩
  · rw [print_ast_node_fresh R heap fuel depth visited ref n hfresh hnode]
    have hact : node_actions R ref n depth =
        (node_switch R ref n depth ++ children_loop depth 0 before) ++
          (Action.line (Line.child_null before.length) ::
            children_loop depth (before.length + 1) after) := by
      rw [node_actions, hchildren, children_loop_append, List.append_assoc]
      simp [children_loop]
    have h1' : run_actions (print_ast_node R heap fuel)
        (node_switch R ref n depth ++ children_loop depth 0 before) (visited ++ [ref]) =
          some (v1, o1) := h1
    rw [hact, run_actions_append, h1']
    simp [run_actions, h2]
  · intro mid rest child hafter
    obtain ⟨⟨vm, om⟩, hm⟩ := run_actions_returns R heap fuel hret
      (children_loop depth (before.length + 1) mid) v1 hlt1
    obtain ⟨am, hvm, _⟩ := run_actions_traversed R heap fuel _ _ vm om
      (children_loop_plain depth mid _) hm
    have hltm : unvisited heap vm < fuel := by
      rw [hvm]
      exact lt_of_le_of_lt (unvisited_append_le heap _ am) hlt1
    obtain ⟨⟨vc, oc⟩, hc⟩ := hret (some child) (depth + 1) vm hltm
    obtain ⟨ac, hvc, _⟩ := print_ast_node_traversed R heap fuel _ _ vm vc oc hc
    have hltc : unvisited heap vc < fuel := by
      rw [hvc]
      exact lt_of_le_of_lt (unvisited_append_le heap _ ac) hltm
    obtain ⟨⟨vr, or⟩, hr⟩ := run_actions_returns R heap fuel hret
      (children_loop depth (before.length + 1 + mid.length + 1) rest) vc hltc
    refine ⟨vm, om, vc, oc, vr, or, hm, hc, hr, ?_, ?_⟩
    · have hsplit : children_loop depth (before.length + 1) after =
          children_loop depth (before.length + 1) mid ++
            (Action.visit (some child) (depth + 1) ::
              children_loop depth (before.length + 1 + mid.length + 1) rest) := by
        rw [hafter, children_loop_append]
        simp [children_loop]
      rw [hsplit, run_actions_append, hm] at h2
      simp only [run_actions, hc, hr, Option.some.injEq, Prod.mk.injEq] at h2
      exact h2.2.symm
    · intro cn hcfresh hcn
      cases fuel with
      | zero => exact absurd hltm (Nat.not_lt_zero _)
      | succ fuel =>
        rw [print_ast_node_fresh R heap fuel (depth + 1) vm child cn hcfresh hcn] at hc
        rcases hb : run_actions (print_ast_node R heap fuel)
            (node_actions R child cn (depth + 1)) (vm ++ [child]) with _ | ⟨vb, ob⟩
        · simp [hb] at hc
        · simp only [hb, Option.some.injEq, Prod.mk.injEq] at hc
          exact ⟨ob, hc.2.symm⟩

/-- C13, on node 0 of the cyclic graph, whose children are node 1, node 1 again, a
null entry and node 2: the placeholder `Child 2 is NULL` is printed in its place,
and node 2 after it is traversed. -/
theorem print_ast_node_null_child_witness :
    print_ast_node renderers_sample heap_cyclic 4 (some 0) 0 [] =
        some ([0, 1, 2],
          [Line.node_type 0 "Program", Line.node_type 1 "Identifier",
            Line.payload "Symbol: x", Line.child_null 2,
            Line.node_type 1 "Numeric Literal", Line.payload "Decimal: false"]) ∧
      Line.text "  " (Line.child_null 2) = "Child 2 is NULL" := by
  obtain ⟨v1, o1, v2, o2, h1, h2, h3, h4, _⟩ :=
    print_ast_node_null_child renderers_sample heap_cyclic 3 0
      (mk_node .NODE_PROGRAM .other [some 1, some 1, none, some 2]) 0 []
      [some 1, some 1] [some 2] "  " (by decide) (by decide) (by decide) (by decide)
  have e1 : run_actions (print_ast_node renderers_sample heap_cyclic 3)
      (node_switch renderers_sample 0
        (mk_node .NODE_PROGRAM .other [some 1, some 1, none, some 2]) 0 ++
        children_loop 0 0 [some 1, some 1]) (mark_visited [] 0) =
      some ([0, 1], [Line.node_type 1 "Identifier", Line.payload "Symbol: x"]) := by decide
  rw [e1] at h1
  simp only [Option.some.injEq, Prod.mk.injEq] at h1
  obtain ⟨rfl, rfl⟩ := h1
  have e2 : run_actions (print_ast_node renderers_sample heap_cyclic 3)
      (children_loop 0 ([some 1, some 1].length + 1) [some 2]) [0, 1] =
      some ([0, 1, 2], [Line.node_type 1 "Numeric Literal", Line.payload "Decimal: false"]) := by
    decide
  rw [e2] at h2
  simp only [Option.some.injEq, Prod.mk.injEq] at h2
  obtain ⟨rfl, rfl⟩ := h2
  exact ⟨h3, by decide⟩

/-- C14.  For a root that is a node of the heap, the output of `print_ast` is the
banner `AST:`, then the line `Node Type:` with the display name of the root's kind
at depth 0, then lines none of which is the banner; for every root the output is
the banner followed by lines none of which is the banner, so it has exactly one
banner; and for a null root the output is the banner alone. -/
theorem print_ast_banner_then_root {F : Type} (R : Renderers F) (heap : Heap F)
    (storage : VisitedNodes) (tab : String) :
    (∀ root n, heap[root]? = some n →
      ∃ below left, print_ast R heap (some root) storage =
          some (Line.banner :: Line.node_type 0 (returnASTNodeName n.kind) :: below, left) ∧
        Line.banner ∉ below) ∧
    Line.text tab Line.banner = "AST:" ∧
    (∀ name, Line.text tab (Line.node_type 0 name) = "Node Type: " ++ name) ∧
    (∀ root, ∃ below left, print_ast R heap root storage = some (Line.banner :: below, left) ∧
      Line.banner ∉ below ∧ (Line.banner :: below).count Line.banner = 1) ∧
    print_ast R heap none storage = some ([Line.banner], []) := by
  refine ⟨fun root n hn => ?_, rfl, fun name => ?_, fun root => ?_, ?_⟩
  · obtain ⟨v, out, hrun, hprint⟩ := print_ast_returns R heap (some root) storage
    obtain ⟨_, _, _, _, _, _, hbanner⟩ :=
      print_ast_node_traversed R heap _ (some root) 0 [] v out hrun
    rw [print_ast_node_fresh R heap heap.length 0 [] root n (by simp) hn,
      List.nil_append] at hrun
    rcases hb : run_actions (print_ast_node R heap heap.length) (node_actions R root n 0)
        [root] with _ | ⟨vb, ob⟩
    · simp [hb] at hrun
    · simp only [hb, Option.some.injEq, Prod.mk.injEq] at hrun
      obtain ⟨_, rfl⟩ := hrun
      exact ⟨ob, [], hprint, fun h => hbanner (List.mem_cons_of_mem _ h)⟩
  · show String.join [] ++ "Node Type: " ++ name = "Node Type: " ++ name
    rfl
  · obtain ⟨v, out, hrun, hprint⟩ := print_ast_returns R heap root storage
    obtain ⟨_, _, _, _, _, _, hbanner⟩ :=
      print_ast_node_traversed R heap _ root 0 [] v out hrun
    refine ⟨out, [], hprint, hbanner, ?_⟩
    rw [List.count_cons_self, List.count_eq_zero_of_not_mem hbanner]
  · simp [print_ast, init_visited, free_visited, print_ast_node_null]

/-- C15.  The output of `print_ast` on a graph and a root does not depend on what
the storage of the visited set held when the call began: it is some `out`, the
same for every content of the storage.  So a second call, which finds in the
storage whatever the first call left there, prints what the first call printed. -/
theorem print_ast_idempotent {F : Type} (R : Renderers F) (heap : Heap F)
    (root : Option NodeRef) :
    ∃ out, (∀ storage, ∃ left, print_ast R heap root storage = some (out, left)) ∧
      ∀ storage left, print_ast R heap root storage = some (out, left) →
        ∃ left2, print_ast R heap root left = some (out, left2) := by
  obtain ⟨v, out, _, hprint⟩ := print_ast_returns R heap root []
  have hall : ∀ storage, ∃ left, print_ast R heap root storage = some (Line.banner :: out, left) := by
    intro storage
    exact ⟨[], by simpa [print_ast, init_visited] using hprint⟩
  exact ⟨Line.banner :: out, hall, fun _ left _ => hall left⟩

/-! ## AST printer: trees of literals and identifiers -/

/-- A renderer that only prints leaves the visited set alone. -/
theorem run_actions_render_lines
    (visit : Option NodeRef → Nat → VisitedNodes → Option (VisitedNodes × List Line))
    (lines : List String) (rest : List Action) (v : VisitedNodes) :
    run_actions visit (render_lines lines ++ rest) v =
      match run_actions visit rest v with
      | none => none
      | some (v1, out) => some (v1, lines.map Line.payload ++ out) := by
  induction lines with
  | nil =>
    simp only [render_lines, List.map_nil, List.nil_append]
    rcases run_actions visit rest v with _ | ⟨v1, out⟩ <;> rfl
  | cons line lines ih =>
    have hstep : run_actions visit (render_lines (line :: lines) ++ rest) v =
        match run_actions visit (render_lines lines ++ rest) v with
        | none => none
        | some (v1, out) => some (v1, Line.payload line :: out) := rfl
    rw [hstep, ih]
    rcases run_actions visit rest v with _ | ⟨v1, out⟩ <;> rfl

/-- The `switch` on a literal or an identifier only prints. -/
theorem node_switch_leaf {F : Type} (R : Renderers F) (ref : NodeRef) (n : AstNode F)
    (depth : Nat) (hkind : n.kind = .NODE_NUMERIC_LITERAL ∨ n.kind = .NODE_IDENTIFIER) :
    ∃ lines, node_switch R ref n depth = render_lines lines := by
  rcases hkind with h | h
  · exact ⟨R.print_numeric_literal ref n depth, by simp [node_switch, h]⟩
  · exact ⟨R.print_identifier ref n depth, by simp [node_switch, h]⟩

/-- The traversal of a literal or identifier node, given the traversal of its
children: the node and the nodes below it are marked, in this order. -/
theorem print_ast_node_leaf {F : Type} (R : Renderers F) (heap : Heap F)
    (ref : NodeRef) (n : AstNode F) (below : List NodeRef)
    (hnode : heap[ref]? = some n)
    (hkind : n.kind = .NODE_NUMERIC_LITERAL ∨ n.kind = .NODE_IDENTIFIER)
    (hbelow : ∀ fuel depth i v, (∀ r ∈ below, r ∉ v) → below.Nodup →
      unvisited heap v < fuel →
      ∃ out, run_actions (print_ast_node R heap fuel) (children_loop depth i n.children) v =
        some (v ++ below, out))
    (fuel depth : Nat) (v : VisitedNodes)
    (hfresh : ∀ r ∈ ref :: below, r ∉ v) (hnodup : (ref :: below).Nodup)
    (hfuel : unvisited heap v < fuel) :
    ∃ out, print_ast_node R heap fuel (some ref) depth v = some (v ++ ref :: below, out) := by
  cases fuel with
  | zero => exact absurd hfuel (Nat.not_lt_zero _)
  | succ fuel =>
    have href : ref ∉ v := hfresh ref (List.mem_cons_self _ _)
    have hlt : unvisited heap (v ++ [ref]) < fuel :=
      lt_of_lt_of_le (unvisited_mark_lt heap v ref (ref_lt_of_node heap ref n hnode) href)
        (Nat.le_of_lt_succ hfuel)
    obtain ⟨hnot, hnd⟩ := List.nodup_cons.1 hnodup
    have hfresh' : ∀ r ∈ below, r ∉ v ++ [ref] := by
      intro r hr hin
      rcases List.mem_append.1 hin with hin | hin
      · exact hfresh r (List.mem_cons_of_mem _ hr) hin
      · rw [List.mem_singleton] at hin
        exact hnot (hin ▸ hr)
    obtain ⟨out, hrun⟩ := hbelow fuel depth 0 (v ++ [ref]) hfresh' hnd hlt
    obtain ⟨lines, hlines⟩ := node_switch_leaf R ref n depth hkind
    rw [print_ast_node_fresh R heap fuel depth v ref n href hnode, node_actions, hlines,
      run_actions_render_lines, hrun]
    exact ⟨Line.node_type depth (returnASTNodeName n.kind) ::
      (lines.map Line.payload ++ out), by simp⟩

/-- The traversal of a forest of literals and identifiers marks its nodes in
depth-first pre-order. -/
theorem run_actions_forest {F : Type} (R : Renderers F) (heap : Heap F)
    (children : List (Option NodeRef)) (refs : List NodeRef)
    (hforest : Forest heap children refs) :
    ∀ fuel depth i v, (∀ r ∈ refs, r ∉ v) → refs.Nodup → unvisited heap v < fuel →
      ∃ out, run_actions (print_ast_node R heap fuel) (children_loop depth i children) v =
        some (v ++ refs, out) := by
  induction hforest with
  | nil =>
    intro fuel depth i v _ _ _
    exact ⟨[], by simp [children_loop, run_actions]⟩
  | cons child n rest below after hnode hkind _ _ ih_below ih_after =>
    intro fuel depth i v hfresh hnodup hfuel
    have hnodup' : (child :: below).Nodup ∧ after.Nodup ∧
        ∀ r ∈ child :: below, r ∉ after := by
      have h := List.nodup_append.1 hnodup
      exact ⟨h.1, h.2.1, fun r hr hr' => h.2.2 hr hr' ⟩
    obtain ⟨o1, h1⟩ := print_ast_node_leaf R heap child n below hnode hkind ih_below fuel
      (depth + 1) v (fun r hr => hfresh r (List.mem_append_left _ hr)) hnodup'.1 hfuel
    have hfresh2 : ∀ r ∈ after, r ∉ v ++ child :: below := by
      intro r hr hin
      rcases List.mem_append.1 hin with hin | hin
      · exact hfresh r (List.mem_append_right _ hr) hin
      · exact hnodup'.2.2 r hin hr
    have hfuel2 : unvisited heap (v ++ child :: below) < fuel :=
      lt_of_le_of_lt (unvisited_append_le heap v _) hfuel
    obtain ⟨o2, h2⟩ := ih_after fuel depth (i + 1) (v ++ child :: below) hfresh2
      hnodup'.2.1 hfuel2
    refine ⟨o1 ++ o2, ?_⟩
    simp [children_loop, run_actions, h1, h2]

/-- The nodes of a forest of literals and identifiers have these two kinds. -/
theorem forest_kinds {F : Type} (heap : Heap F) (children : List (Option NodeRef))
    (refs : List NodeRef) (hforest : Forest heap children refs) :
    ∀ r ∈ refs, kind_at heap r = some .NODE_NUMERIC_LITERAL ∨
      kind_at heap r = some .NODE_IDENTIFIER := by
  induction hforest with
  | nil => intro r hr; cases hr
  | cons child n rest below after hnode hkind _ _ ih_below ih_after =>
    intro r hr
    rcases List.mem_append.1 hr with hr | hr
    · rcases List.mem_cons.1 hr with rfl | hr
      · rcases hkind with h | h
        · exact Or.inl (by simp [kind_at, hnode, h])
        · exact Or.inr (by simp [kind_at, hnode, h])
      · exact ih_below r hr
    · exact ih_after r hr

theorem node_name_of_kind_at {F : Type} (heap : Heap F) (ref : NodeRef) (kind : NodeType)
    (h : kind_at heap ref = some kind) : node_name heap ref = returnASTNodeName kind := by
  unfold kind_at at h
  unfold node_name
  rcases hn : heap[ref]? with _ | n
  · simp [hn] at h
  · simp only [hn, Option.some.injEq] at h
    simp [h]

/-- The display names of the two leaf kinds belong to no other kind. -/
theorem returnASTNodeName_leaf_injective (leaf kind : NodeType)
    (hleaf : leaf = .NODE_NUMERIC_LITERAL ∨ leaf = .NODE_IDENTIFIER)
    (h : returnASTNodeName kind = returnASTNodeName leaf) : kind = leaf := by
  rcases hleaf with rfl | rfl <;> cases kind <;>
    first
      | rfl
      | exact absurd h (by decide)
      | exact absurd h (by simp [returnASTNodeName])

/-- Among nodes of the two leaf kinds, the display name of a leaf kind occurs as
often as the kind. -/
theorem count_leaf_names {F : Type} (heap : Heap F) (refs : List NodeRef)
    (hkinds : ∀ r ∈ refs, kind_at heap r = some .NODE_NUMERIC_LITERAL ∨
      kind_at heap r = some .NODE_IDENTIFIER)
    (kind : NodeType) (hleaf : kind = .NODE_NUMERIC_LITERAL ∨ kind = .NODE_IDENTIFIER) :
    (refs.map (node_name heap)).count (returnASTNodeName kind) =
      refs.countP (fun r => decide (kind_at heap r = some kind)) := by
  induction refs with
  | nil => simp
  | cons r rest ih =>
    have hrest := ih (fun r' hr' => hkinds r' (List.mem_cons_of_mem _ hr'))
    have hr : ∃ k, kind_at heap r = some k ∧
        (k = .NODE_NUMERIC_LITERAL ∨ k = .NODE_IDENTIFIER) := by
      rcases hkinds r (List.mem_cons_self _ _) with h | h
      · exact ⟨_, h, Or.inl rfl⟩
      · exact ⟨_, h, Or.inr rfl⟩
    obtain ⟨k, hk, hkleaf⟩ := hr
    rw [List.map_cons, List.count_cons, List.countP_cons, hrest,
      node_name_of_kind_at heap r k hk, hk]
    by_cases hkk : k = kind
    · subst hkk
      simp
    · have hne : returnASTNodeName k ≠ returnASTNodeName kind := fun h =>
        hkk (returnASTNodeName_leaf_injective kind k hleaf h)
      simp [hne, hkk]

/-- C16.  On a tree of NumericLiteral and Identifier nodes linked through child
sequences, without sharing and without null entries (`refs` lists its nodes in
depth-first pre-order, each once), `print_ast` prints exactly one `Node Type`
line per node, in that order.  So the display name of a kind occurs in the output
as many times as the tree has nodes of that kind, and occurs at all exactly when
the tree has such a node. -/
theorem print_ast_tree_no_phantom {F : Type} (R : Renderers F) (heap : Heap F)
    (root : NodeRef) (refs : List NodeRef) (storage : VisitedNodes)
    (htree : Forest heap [some root] refs) (hnodup : refs.Nodup) :
    ∃ out left, print_ast R heap (some root) storage = some (out, left) ∧
      rendered_names out = refs.map (node_name heap) ∧
      (∀ kind, kind = .NODE_NUMERIC_LITERAL ∨ kind = .NODE_IDENTIFIER →
        (rendered_names out).count (returnASTNodeName kind) =
          refs.countP (fun r => decide (kind_at heap r = some kind))) ∧
      (∀ kind, returnASTNodeName kind ∈ rendered_names out ↔
        ∃ r ∈ refs, kind_at heap r = some kind) := by
  have hkinds := forest_kinds heap [some root] refs htree
  -- the traversal marks exactly the nodes of the tree
  have hmarks : ∃ out, print_ast_node R heap (heap.length + 1) (some root) 0 [] =
      some (refs, out) := by
    cases htree with
    | cons child n rest below after hnode hkind hbelow hafter =>
      cases hafter
      simp only [List.append_nil] at hnodup ⊢
      obtain ⟨out, h⟩ := print_ast_node_leaf R heap root n below hnode hkind
        (run_actions_forest R heap n.children below hbelow) (heap.length + 1) 0 []
        (by simp) hnodup (Nat.lt_succ_of_le (unvisited_le_length heap []))
      exact ⟨out, by simpa using h⟩
  obtain ⟨out, hrun⟩ := hmarks
  obtain ⟨added, hv, _, _, _, hnames, _⟩ :=
    print_ast_node_traversed R heap _ (some root) 0 [] refs out hrun
  have hadded : added = refs := by simpa using hv.symm
  subst hadded
  have hnames' : rendered_names (Line.banner :: out) = added.map (node_name heap) := by
    simpa [rendered_names] using hnames
  refine ⟨Line.banner :: out, [], by simp [print_ast, init_visited, free_visited, hrun],
    hnames', ?_, ?_⟩
  · intro kind hleaf
    rw [hnames']
    exact count_leaf_names heap added hkinds kind hleaf
  · intro kind
    rw [hnames', List.mem_map]
    constructor
    · rintro ⟨r, hr, hname⟩
      refine ⟨r, hr, ?_⟩
      rcases hkinds r hr with h | h
      · rw [node_name_of_kind_at heap r _ h] at hname
        rw [h, returnASTNodeName_leaf_injective _ kind (Or.inl rfl) hname.symm]
      · rw [node_name_of_kind_at heap r _ h] at hname
        rw [h, returnASTNodeName_leaf_injective _ kind (Or.inr rfl) hname.symm]
    · rintro ⟨r, hr, hk⟩
      exact ⟨r, hr, node_name_of_kind_at heap r kind hk⟩

/-- C16, on a tree of four nodes (an identifier with a numeric literal, which has
an identifier below it, and a second numeric literal): four `Node Type` lines in
pre-order, two for each kind. -/
theorem print_ast_tree_no_phantom_witness :
    (∃ out left, print_ast renderers_sample heap_tree (some 0) [] = some (out, left) ∧
      rendered_names out = [0, 1, 2, 3].map (node_name heap_tree)) ∧
    (print_ast renderers_sample heap_tree (some 0) []).map (fun r => rendered_names r.1) =
      some ["Identifier", "Numeric Literal", "Identifier", "Numeric Literal"] := by
  have htree : Forest heap_tree [some 0] [0, 1, 2, 3] :=
    Forest.cons 0 _ [] [1, 2, 3] [] rfl (Or.inr rfl)
      (Forest.cons 1 _ [some 3] [2] [3] rfl (Or.inl rfl)
        (Forest.cons 2 _ [] [] [] rfl (Or.inr rfl) Forest.nil Forest.nil)
        (Forest.cons 3 _ [] [] [] rfl (Or.inl rfl) Forest.nil Forest.nil))
      Forest.nil
  obtain ⟨out, left, h, hnames, _⟩ :=
    print_ast_tree_no_phantom renderers_sample heap_tree 0 [0, 1, 2, 3] [] htree (by decide)
  exact ⟨⟨out, left, h, hnames⟩, by decide⟩

/-! ## AST printer: display names and dispatch -/

/-- C17.  `returnASTNodeName` is the table Program, Numeric Literal, Identifier,
Binary Expression, Package Statement, Import Statement, Assignment Expression,
Object Expression, Property, and "Unknown" for every other kind; and the
`Node Type` line that `print_ast_node` prints for a node is the first line of the
call and shows this name for the node's kind, after the indentation. -/
theorem returnASTNodeName_table {F : Type} (R : Renderers F) (heap : Heap F) :
    returnASTNodeName .NODE_PROGRAM = "Program" ∧
    returnASTNodeName .NODE_NUMERIC_LITERAL = "Numeric Literal" ∧
    returnASTNodeName .NODE_IDENTIFIER = "Identifier" ∧
    returnASTNodeName .NODE_BINARY_EXPR = "Binary Expression" ∧
    returnASTNodeName .NODE_PACKAGE = "Package Statement" ∧
    returnASTNodeName .NODE_IMPORT = "Import Statement" ∧
    returnASTNodeName .NODE_ASSIGNMENT = "Assignment Expression" ∧
    returnASTNodeName .NODE_OBJECT = "Object Expression" ∧
    returnASTNodeName .NODE_PROPERTY = "Property" ∧
    (∀ kind, kind ≠ .NODE_PROGRAM → kind ≠ .NODE_NUMERIC_LITERAL → kind ≠ .NODE_IDENTIFIER →
      kind ≠ .NODE_BINARY_EXPR → kind ≠ .NODE_PACKAGE → kind ≠ .NODE_IMPORT →
      kind ≠ .NODE_ASSIGNMENT → kind ≠ .NODE_OBJECT → kind ≠ .NODE_PROPERTY →
      returnASTNodeName kind = "Unknown") ∧
    (∀ fuel ref n depth visited res, ref ∉ visited → heap[ref]? = some n →
      print_ast_node R heap fuel (some ref) depth visited = some res →
      ∃ below, res.2 = Line.node_type depth (returnASTNodeName n.kind) :: below) ∧
    (∀ tab depth kind, Line.text tab (Line.node_type depth (returnASTNodeName kind)) =
      print_indent tab depth ++ "Node Type: " ++ returnASTNodeName kind) := by
  refine ⟨rfl, rfl, rfl, rfl, rfl, rfl, rfl, rfl, rfl, ?_, ?_, fun _ _ _ => rfl⟩
  · intro kind h1 h2 h3 h4 h5 h6 h7 h8 h9
    cases kind <;> first | rfl | contradiction
  · intro fuel ref n depth visited res hfresh hnode h
    cases fuel with
    | zero => simp [print_ast_node] at h
    | succ fuel =>
      rw [print_ast_node_fresh R heap fuel depth visited ref n hfresh hnode] at h
      rcases hb : run_actions (print_ast_node R heap fuel) (node_actions R ref n depth)
          (visited ++ [ref]) with _ | ⟨vb, ob⟩
      · simp [hb] at h
      · simp only [hb, Option.some.injEq] at h
        exact ⟨ob, by rw [← h]⟩

/-- C17, on the tree of literals and identifiers: the display names of the nodes
0 and 1, and the text of the first `Node Type` line. -/
theorem returnASTNodeName_table_witness :
    (∃ below, (print_ast_node renderers_sample heap_tree 5 (some 1) 1 [0]).map (fun r => r.2) =
      some (Line.node_type 1 "Numeric Literal" :: below)) ∧
    Line.text "  " (Line.node_type 1 (returnASTNodeName .NODE_NUMERIC_LITERAL)) =
      "  Node Type: Numeric Literal" := by
  obtain ⟨res, hres⟩ := print_ast_node_returns renderers_sample heap_tree 5 (some 1) 1 [0]
    (by decide)
  obtain ⟨below, hb⟩ := (returnASTNodeName_table renderers_sample heap_tree).2.2.2.2.2.2.2.2.2.2.1
    5 1 _ 1 [0] res (by decide) rfl hres
  refine ⟨⟨below, ?_⟩, by decide⟩
  rw [hres]
  show some res.2 = _
  rw [hb]
  rfl

/-- C20.  A node of kind PreDecrement is dispatched to `print_pre_decrement`, not
to the generic branch, and yet its display name is "Unknown"; for every other
kind the display name is "Unknown" exactly when the `switch` takes the generic
branch, which prints the line "Value: Unknown or no data" at `depth + 1`. -/
theorem pre_decrement_name_dispatch_mismatch {F : Type} (R : Renderers F) (ref : NodeRef)
    (n : AstNode F) (depth : Nat) :
    (n.kind = .NODE_PRE_DECREMENT →
      node_switch R ref n depth = render_steps (R.print_pre_decrement ref n depth) ∧
      Action.line (Line.value_unknown (depth + 1)) ∉ node_switch R ref n depth ∧
      returnASTNodeName n.kind = "Unknown") ∧
    (n.kind ≠ .NODE_PRE_DECREMENT →
      (returnASTNodeName n.kind = "Unknown" ↔
        node_switch R ref n depth = [Action.line (Line.value_unknown (depth + 1))])) ∧
    (∀ tab, Line.text tab (Line.value_unknown (depth + 1)) =
      print_indent tab (depth + 1) ++ "Value: Unknown or no data") := by
  have hsteps : ∀ steps, Action.line (Line.value_unknown (depth + 1)) ∉ render_steps steps :=
    fun steps h => by
      simp only [render_steps, List.mem_map] at h
      obtain ⟨step, _, hs⟩ := h
      cases step <;> cases hs
  have hlines : ∀ lines, Action.line (Line.value_unknown (depth + 1)) ∉ render_lines lines :=
    fun lines h => by
      simp only [render_lines, List.mem_map] at h
      obtain ⟨line, _, hs⟩ := h
      cases hs
  refine ⟨fun h => ?_, fun hne => ?_, fun _ => rfl⟩
  · have hsw : node_switch R ref n depth = render_steps (R.print_pre_decrement ref n depth) := by
      simp [node_switch, h]
    exact ⟨hsw, by rw [hsw]; exact hsteps _, by rw [h]; rfl⟩
  · constructor
    · intro hname
      rcases hk : n.kind with _ | _ | _ | _ | _ | _ | _ | _ | _ | _ | tag <;>
        first
          | exact absurd hk hne
          | (rw [hk] at hname; exact absurd hname (by decide))
          | simp [node_switch, hk]
    · intro hsw
      have hmem : Action.line (Line.value_unknown (depth + 1)) ∈ node_switch R ref n depth := by
        rw [hsw]; exact List.mem_singleton_self _
      rcases hk : n.kind with _ | _ | _ | _ | _ | _ | _ | _ | _ | _ | tag <;>
        first
          | exact absurd hk hne
          | (simp only [node_switch, hk] at hmem; exact absurd hmem (hsteps _))
          | (simp only [node_switch, hk] at hmem; exact absurd hmem (hlines _))
          | rfl

/-- C20, on a PreDecrement node with an identifier operand and on a node of a kind
without renderer: the first reads "Unknown" and is rendered by
`print_pre_decrement`, the second reads "Unknown" and gets the generic line. -/
theorem pre_decrement_name_dispatch_mismatch_witness :
    print_ast renderers_sample heap_pre_decrement (some 0) [] =
        some ([Line.banner, Line.node_type 0 "Unknown", Line.payload "Operand:",
          Line.node_type 1 "Identifier", Line.payload "Symbol: i"], []) ∧
      print_ast renderers_sample heap_pre_decrement (some 2) [] =
        some ([Line.banner, Line.node_type 0 "Unknown", Line.value_unknown 1], []) ∧
      node_switch renderers_sample 0 (mk_node .NODE_PRE_DECREMENT .other [some 1]) 0 =
        render_steps (renderers_sample.print_pre_decrement 0
          (mk_node .NODE_PRE_DECREMENT .other [some 1]) 0) :=
  ⟨by decide, by decide,
    ((pre_decrement_name_dispatch_mismatch renderers_sample 0
      (mk_node .NODE_PRE_DECREMENT .other [some 1]) 0).1 rfl).1⟩

/-! ## Permissive integer conversion -/

theorem isdigit_not_isspace (c : Char) (h : isdigit c = true) : isspace c = false := by
  simp only [isdigit, Bool.and_eq_true, decide_eq_true_eq] at h
  simp only [isspace, Bool.or_eq_false_iff, Bool.and_eq_false_iff, decide_eq_false_iff_not]
  omega

theorem decimal_value_cons (d : Char) (ds : List Char) :
    decimal_value (d :: ds) = (d.toNat - 48) * 10 ^ ds.length + decimal_value ds := by
  simp only [decimal_value, List.reverse_cons, List.map_append, List.map_cons, List.map_nil,
    Nat.ofDigits_append, List.length_map, List.length_reverse, Nat.ofDigits_singleton]
  ring

/-- The digits at the head of a text are read up to the first character that is
not a digit. -/
theorem digits_value_append (digits rest : List Char)
    (hdigits : ∀ c ∈ digits, isdigit c = true)
    (hrest : ∀ c, rest.head? = some c → isdigit c = false) :
    ∀ acc, digits_value acc (digits ++ rest) = acc * 10 ^ digits.length + decimal_value digits := by
  induction digits with
  | nil =>
    intro acc
    cases rest with
    | nil => simp [digits_value, decimal_value]
    | cons c cs => simp [digits_value, decimal_value, hrest c rfl]
  | cons d ds ih =>
    intro acc
    have hd : isdigit d = true := hdigits d (List.mem_cons_self _ _)
    have hstep : digits_value acc (d :: (ds ++ rest)) =
        digits_value (acc * 10 + (d.toNat - 48)) (ds ++ rest) := by
      simp [digits_value, hd]
    rw [List.cons_append, hstep, ih (fun c hc => hdigits c (List.mem_cons_of_mem _ hc)),
      decimal_value_cons, List.length_cons]
    ring

/-- The integer denoted by a text that begins with a run of digits. -/
theorem parsed_integer_leading_digits (digits rest : List Char) (hne : digits ≠ [])
    (hdigits : ∀ c ∈ digits, isdigit c = true)
    (hrest : ∀ c, rest.head? = some c → isdigit c = false) :
    parsed_integer (String.mk (digits ++ rest)) = (decimal_value digits : Int) := by
  cases digits with
  | nil => exact absurd rfl hne
  | cons d ds =>
    have hd : isdigit d = true := hdigits d (List.mem_cons_self _ _)
    have hsp : isspace d = false := isdigit_not_isspace d hd
    have hval := digits_value_append (d :: ds) rest hdigits hrest 0
    have hdrop : (String.mk (d :: ds ++ rest)).toList.dropWhile isspace = d :: (ds ++ rest) := by
      show (d :: (ds ++ rest)).dropWhile isspace = _
      simp [List.dropWhile, hsp]
    have hminus : d ≠ '-' := by
      rintro rfl
      exact absurd hd (by decide)
    have hplus : d ≠ '+' := by
      rintro rfl
      exact absurd hd (by decide)
    unfold parsed_integer
    rw [hdrop]
    split
    · next h => simp only [List.cons.injEq] at h; exact absurd h.1 hminus
    · next h => simp only [List.cons.injEq] at h; exact absurd h.1 hplus
    · rw [← List.cons_append, hval]
      simp

/-- The integer denoted by a text without a leading number is 0. -/
theorem parsed_integer_no_number (c : Char) (cs : List Char)
    (hdigit : isdigit c = false) (hspace : isspace c = false)
    (hsign : c = '-' ∨ c = '+' → ∀ d, cs.head? = some d → isdigit d = false) :
    parsed_integer (String.mk (c :: cs)) = 0 := by
  have hdrop : (String.mk (c :: cs)).toList.dropWhile isspace = c :: cs := by
    show (c :: cs).dropWhile isspace = _
    simp [List.dropWhile, hspace]
  have hzero : ∀ text : List Char, (∀ d, text.head? = some d → isdigit d = false) →
      digits_value 0 text = 0 := by
    intro text h
    cases text with
    | nil => rfl
    | cons d ds => simp [digits_value, h d rfl]
  unfold parsed_integer
  rw [hdrop]
  split
  · next rest h =>
    simp only [List.cons.injEq] at h
    rw [hzero rest (h.2 ▸ hsign (Or.inl h.1))]
    rfl
  · next rest h =>
    simp only [List.cons.injEq] at h
    rw [hzero rest (h.2 ▸ hsign (Or.inr h.1))]
    rfl
  · rw [hzero (c :: cs) (fun d hd => by simp only [List.head?_cons, Option.some.injEq] at hd; exact hd ▸ hdigit)]
    rfl

/-- Inside the range of `int`, `atoi` is the integer the text denotes. -/
theorem atoi_of_int_range (s : String) (hlow : -2147483648 ≤ parsed_integer s)
    (hhigh : parsed_integer s ≤ 2147483647) : atoi s = parsed_integer s := by
  unfold atoi strtol int_of_long LONG_MIN LONG_MAX
  rw [if_neg (by omega), if_neg (by omega)]
  omega

/-- `atoi` of a text that begins with a run of digits within the range of `int`. -/
theorem atoi_leading_digits (digits rest : List Char) (hne : digits ≠ [])
    (hdigits : ∀ c ∈ digits, isdigit c = true)
    (hrest : ∀ c, rest.head? = some c → isdigit c = false)
    (hrange : decimal_value digits ≤ 2147483647) :
    atoi (String.mk (digits ++ rest)) = (decimal_value digits : Int) := by
  have h := parsed_integer_leading_digits digits rest hne hdigits hrest
  rw [atoi_of_int_range _ (by rw [h]; omega) (by rw [h]; omega), h]

/-- `atoi` of a text without a leading number is 0. -/
theorem atoi_no_number (c : Char) (cs : List Char)
    (hdigit : isdigit c = false) (hspace : isspace c = false)
    (hsign : c = '-' ∨ c = '+' → ∀ d, cs.head? = some d → isdigit d = false) :
    atoi (String.mk (c :: cs)) = 0 := by
  have h := parsed_integer_no_number c cs hdigit hspace hsign
  rw [atoi_of_int_range _ (by rw [h]; omega) (by rw [h]; omega), h]

/-- C18.  For a NUMBER token whose tag is not "decimal": when the lexeme is a
non-empty run of decimal digits (denoting a value within the range of `int`)
followed by nothing or by text that begins with a non-digit, the parse succeeds
with `decimal = false` and the value the digit run denotes, the rest being
ignored; and when the lexeme is non-empty but has no leading number (its first
character is no digit and no white space, and if it is a sign no digit follows),
the parse succeeds with the value 0. -/
theorem parse_primary_expr_integer_permissive {F : Type} (env : Env F) (parser : Parser)
    (hkind : (at_ parser).type = .TOKEN_NUMBER)
    (htag : (at_ parser).message ≠ "decimal") :
    (∀ digits rest : List Char, (at_ parser).lexeme = some (String.mk (digits ++ rest)) →
      digits ≠ [] → (∀ c ∈ digits, isdigit c = true) →
      (∀ c, rest.head? = some c → isdigit c = false) →
      decimal_value digits ≤ 2147483647 →
      ∃ node : AstNode F, (parse_primary_expr env parser).1 = some node ∧
        node.kind = .NODE_NUMERIC_LITERAL ∧
        node.data = .numeric
          { value := env.ofInt (decimal_value digits : Int), decimal := false }) ∧
    (∀ (c : Char) (cs : List Char), (at_ parser).lexeme = some (String.mk (c :: cs)) →
      isdigit c = false → isspace c = false →
      (c = '-' ∨ c = '+' → ∀ d, cs.head? = some d → isdigit d = false) →
      ∃ node : AstNode F, (parse_primary_expr env parser).1 = some node ∧
        node.kind = .NODE_NUMERIC_LITERAL ∧
        node.data = .numeric { value := env.ofInt 0, decimal := false }) := by
  constructor
  · intro digits rest hlex hne hdigits hrest hrange
    have hnonempty : String.mk (digits ++ rest) ≠ "" := by
      intro h
      have := congrArg String.data h
      simp only [List.append_eq_nil] at this
      exact hne this.1
    rw [primary_number_ok env parser _ hkind hlex hnonempty]
    refine ⟨_, rfl, rfl, ?_⟩
    simp [create_ast_node, htag, atoi_leading_digits digits rest hne hdigits hrest hrange]
  · intro c cs hlex hdigit hspace hsign
    have hnonempty : String.mk (c :: cs) ≠ "" := by
      intro h
      have := congrArg String.data h
      cases this
    rw [primary_number_ok env parser _ hkind hlex hnonempty]
    refine ⟨_, rfl, rfl, ?_⟩
    simp [create_ast_node, htag, atoi_no_number c cs hdigit hspace hsign]

/-- C18, at the lexemes `12abc`, `3.14` and `abc`, each tagged integer: the values
are 12, 3 and 0. -/
theorem parse_primary_expr_integer_permissive_witness :
    (∃ node : AstNode SymDouble,
      (parse_primary_expr env_primary (Parser.start (tokens_integer "12abc"))).1 = some node ∧
      node.kind = .NODE_NUMERIC_LITERAL ∧
      node.data = .numeric { value := env_primary.ofInt 12, decimal := false }) ∧
    (∃ node : AstNode SymDouble,
      (parse_primary_expr env_primary (Parser.start (tokens_integer "3.14"))).1 = some node ∧
      node.kind = .NODE_NUMERIC_LITERAL ∧
      node.data = .numeric { value := env_primary.ofInt 3, decimal := false }) ∧
    (∃ node : AstNode SymDouble,
      (parse_primary_expr env_primary (Parser.start (tokens_integer "abc"))).1 = some node ∧
      node.kind = .NODE_NUMERIC_LITERAL ∧
      node.data = .numeric { value := env_primary.ofInt 0, decimal := false }) :=
  ⟨(parse_primary_expr_integer_permissive env_primary (Parser.start (tokens_integer "12abc"))
      (by decide) (by decide)).1 ['1', '2'] ['a', 'b', 'c'] rfl (by decide) (by decide)
      (by decide) (by decide),
    (parse_primary_expr_integer_permissive env_primary (Parser.start (tokens_integer "3.14"))
      (by decide) (by decide)).1 ['3'] ['.', '1', '4'] rfl (by decide) (by decide)
      (by decide) (by decide),
    (parse_primary_expr_integer_permissive env_primary (Parser.start (tokens_integer "abc"))
      (by decide) (by decide)).2 'a' ['b', 'c'] rfl (by decide) (by decide) (by decide)⟩

/-! ## Bounds of the token reads -/

/-- Where the checked reads succeed, they read what `eat` and `at` read. -/
theorem primary_reads_checked_agrees (parser : Parser)
    (reads : Token × Int × Int × Int × Int × Int)
    (h : primary_reads_checked parser = some reads) :
    reads = ((eat parser).1, (at_ (eat parser).2).line, (at_ (eat parser).2).column_start,
      (at_ (eat parser).2).column_end, (at_ (eat parser).2).position_start,
      (at_ (eat parser).2).position_end) := by
  unfold primary_reads_checked eat_checked at_checked at h
  rcases h0 : parser.tokens[parser.index]? with _ | token
  · simp [h0] at h
  · simp only [h0] at h
    rcases h1 : parser.tokens[parser.index + 1]? with _ | next
    · simp [h1] at h
    · simp only [h1, Option.some.injEq] at h
      rw [← h]
      simp [eat, at_, List.getD_eq_getElem?_getD, h0, h1]

/-- The checked reads succeed exactly when a token follows the current one. -/
theorem primary_reads_checked_isSome (parser : Parser) :
    (primary_reads_checked parser).isSome = true ↔ parser.index + 1 < parser.tokens.length := by
  unfold primary_reads_checked eat_checked at_checked
  constructor
  · intro h
    rcases h0 : parser.tokens[parser.index]? with _ | token
    · simp [h0] at h
    · simp only [h0] at h
      rcases h1 : parser.tokens[parser.index + 1]? with _ | next
      · simp [h1] at h
      · by_contra hlt
        rw [List.getElem?_eq_none (Nat.le_of_not_lt hlt)] at h1
        cases h1
  · intro h
    have h1 : parser.tokens[parser.index + 1]? = some parser.tokens[parser.index + 1] :=
      List.getElem?_eq_getElem h
    have h0 : parser.tokens[parser.index]? = some parser.tokens[parser.index] :=
      List.getElem?_eq_getElem (Nat.lt_of_succ_lt h)
    simp [h0, h1]

/-- C19.  What the code does where the claim expects every read within bounds:
with exactly one token remaining at the cursor, which meets the stated
precondition, the up-front consume reads inside the token array and the peek that
follows reads at its end, outside of it. -/
theorem parse_primary_expr_peek_past_end (parser : Parser)
    (hone : parser.index + 1 = parser.tokens.length) :
    parser.tokens ≠ [] ∧ parser.index < parser.tokens.length ∧
      (eat_checked parser).isSome = true ∧
      (∀ token next, eat_checked parser = some (token, next) → at_checked next = none) ∧
      primary_reads_checked parser = none := by
  have hlt : parser.index < parser.tokens.length := by omega
  have h0 : parser.tokens[parser.index]? = some parser.tokens[parser.index] :=
    List.getElem?_eq_getElem hlt
  have h1 : parser.tokens[parser.index + 1]? = none :=
    List.getElem?_eq_none (by omega)
  refine ⟨fun h => ?_, hlt, by simp [eat_checked, h0], ?_, ?_⟩
  · rw [h] at hlt
    exact Nat.not_lt_zero _ hlt
  · intro token next h
    simp only [eat_checked, h0, Option.some.injEq, Prod.mk.injEq] at h
    rw [← h.2]
    exact h1
  · simp [primary_reads_checked, eat_checked, at_checked, h0, h1]

/-- C19, at the end-of-input token of the input `(`, where the parser stands after
the parenthesis has been consumed: one token remains, and the peek reads past the
end of the token array. -/
theorem parse_primary_expr_peek_past_end_witness :
    (eat_checked { Parser.start tokens_open with index := 1 }).isSome = true ∧
      primary_reads_checked { Parser.start tokens_open with index := 1 } = none ∧
      (primary_reads_checked (Parser.start tokens_open)).isSome = true :=
  ⟨(parse_primary_expr_peek_past_end { Parser.start tokens_open with index := 1 }
      (by decide)).2.2.1,
    (parse_primary_expr_peek_past_end { Parser.start tokens_open with index := 1 }
      (by decide)).2.2.2.2,
    by decide⟩

/-! ## The banner and repeated calls, evaluated -/

/-- C14, on the tree of literals and identifiers and on a null root. -/
theorem print_ast_banner_then_root_witness :
    (print_ast renderers_sample heap_tree (some 0) []).map (fun r => r.1.take 2) =
        some [Line.banner, Line.node_type 0 "Identifier"] ∧
      (print_ast renderers_sample heap_tree (some 0) []).map
        (fun r => (r.1.take 2).map (Line.text "  ")) = some ["AST:", "Node Type: Identifier"] ∧
      print_ast renderers_sample heap_tree none [] = some ([Line.banner], []) :=
  ⟨by decide, by decide, (print_ast_banner_then_root renderers_sample heap_tree [] "  ").2.2.2.2⟩

/-- C15, on the cyclic graph: two calls in a row print the same lines, whereas the
traversal started on the set the first call marked would print nothing. -/
theorem print_ast_idempotent_witness :
    (∃ out, (∀ storage, ∃ left,
        print_ast renderers_sample heap_cyclic (some 0) storage = some (out, left)) ∧
      ∀ storage left, print_ast renderers_sample heap_cyclic (some 0) storage = some (out, left) →
        ∃ left2, print_ast renderers_sample heap_cyclic (some 0) left = some (out, left2)) ∧
    (print_ast renderers_sample heap_cyclic (some 0) []).map (fun r => r.1) =
      (print_ast renderers_sample heap_cyclic (some 0) [0, 1, 2]).map (fun r => r.1) ∧
    print_ast_node renderers_sample heap_cyclic 4 (some 0) 0 [0, 1, 2] = some ([0, 1, 2], []) :=
  ⟨print_ast_idempotent renderers_sample heap_cyclic (some 0), by decide, by decide⟩

end Galaxy
